import Mathlib

/-!
# Verification development for the temporal snapshot-extraction pipeline

Shallow embedding of the core of `scripts/08_temporal_extraction.py`
(GitHub API client with rate limiting, git snapshot resolution,
Designite result parsing, and the per-repository / per-project-year
orchestrator), together with the retrying GraphQL helper in
`tools/csDetector-fixed/graphqlAnalysis/graphqlAnalysisHelper.py` and
the row loop of `scripts/08b_run_designite_temporal.py`.

Modelling conventions:
* Python `dict`s are association lists `List (String × α)`; assignment
  `d[k] = v` replaces the binding of `k` in place (Python dicts keep
  insertion order and update values in place), or appends a new binding.
* Instants (`datetime`) are integer day numbers of the proleptic
  Gregorian calendar (the calendar Python's `datetime` + `timedelta(days=…)`
  implements); `daysFromCivil` is the standard civil-calendar conversion.
* Subprocess / network effects are modelled by explicit outcome values
  fed to the embedded control flow; `time.sleep` calls become explicit
  wait events so that waiting behaviour is provable.
* A Python function that can raise an exception to its caller is embedded
  with an `Except` result; one whose body catches every exception is
  embedded with its plain return type.
-/

set_option autoImplicit false

namespace TemporalExtraction

/-! ## Association-list dictionaries (Python `dict` with string keys) -/

/-- First-match lookup, like reading `d[k]` / `d.get(k)`. -/
def lookupD {α : Type} : List (String × α) → String → Option α
  | [], _ => none
  | p :: rest, k => if p.1 = k then some p.2 else lookupD rest k

/-- `d[k] = v`: replace the (first) binding of `k` in place, else append. -/
def upsert {α : Type} : List (String × α) → String → α → List (String × α)
  | [], k, v => [(k, v)]
  | p :: rest, k, v => if p.1 = k then (k, v) :: rest else p :: upsert rest k v

/-- `d.update(u)`: apply every binding of `u` to `d`, in order. -/
def dictUpdate {α : Type} (d u : List (String × α)) : List (String × α) :=
  u.foldl (fun acc p => upsert acc p.1 p.2) d

/-- The keys of a dictionary, in order. -/
def keysOf {α : Type} (d : List (String × α)) : List String :=
  d.map Prod.fst

/-- `sum(d.values())`. -/
def sumVals (d : List (String × Nat)) : Nat :=
  (d.map Prod.snd).sum

theorem lookupD_upsert {α : Type} (d : List (String × α)) (k j : String) (v : α) :
    lookupD (upsert d k v) j = if j = k then some v else lookupD d j := by
  induction d with
  | nil =>
    by_cases h : j = k
    · simp [upsert, lookupD, h]
    · have h2 : ¬ k = j := fun hkj => h hkj.symm
      simp [upsert, lookupD, h, h2]
  | cons p rest ih =>
    by_cases hp : p.1 = k
    · by_cases hj : j = k
      · simp [upsert, lookupD, hp, hj]
      · have h2 : ¬ k = j := fun hkj => hj hkj.symm
        simp [upsert, lookupD, hp, hj, h2]
    · by_cases hj : p.1 = j
      · have h2 : ¬ j = k := fun h => hp (hj.trans h)
        simp [upsert, lookupD, hp, hj, h2]
      · simp [upsert, lookupD, hp, hj, ih]

theorem keysOf_upsert {α : Type} (d : List (String × α)) (k : String) (v : α) :
    keysOf (upsert d k v) = if k ∈ keysOf d then keysOf d else keysOf d ++ [k] := by
  induction d with
  | nil => simp [upsert, keysOf]
  | cons p rest ih =>
    simp only [keysOf, List.map] at ih ⊢
    by_cases hp : p.1 = k
    · have hmem : k ∈ p.1 :: List.map Prod.fst rest := by
        rw [hp]; exact List.mem_cons_self _ _
      rw [upsert, if_pos hp, if_pos hmem]
      simp [hp]
    · have hiff : (k ∈ p.1 :: List.map Prod.fst rest) ↔ k ∈ List.map Prod.fst rest := by
        constructor
        · intro h
          rcases List.mem_cons.mp h with h1 | h2
          · exact absurd h1.symm hp
          · exact h2
        · intro h
          exact List.mem_cons_of_mem _ h
      rw [upsert, if_neg hp]
      by_cases hk : k ∈ List.map Prod.fst rest
      · rw [if_pos (hiff.mpr hk)]
        simp only [List.map]
        rw [ih, if_pos hk]
      · rw [if_neg (fun h => hk (hiff.mp h))]
        simp only [List.map]
        rw [ih, if_neg hk]
        simp

theorem mem_keysOf_upsert {α : Type} (d : List (String × α)) (k j : String) (v : α) :
    j ∈ keysOf (upsert d k v) ↔ j ∈ keysOf d ∨ j = k := by
  rw [keysOf_upsert]
  by_cases hk : k ∈ keysOf d
  · simp [hk]
    intro h; rw [h]; exact hk
  · simp [hk]

/-! ## Designite result parsing

`DesigniteRunner._parse_results` (08_temporal_extraction.py lines 445-488).
A result CSV is modelled as the list of smell-type strings extracted from
its rows (`row.get("Design Smell", "Unknown")`); a missing or unreadable
file is `none`. -/

/-- `k.replace(" ", "_")` applied to a smell-type name: the pattern is the
single character `' '`, so the replacement is a per-character map. -/
def safeKey (s : String) : String :=
  String.mk (s.data.map (fun c => if c = ' ' then '_' else c))

/-- `smell_counts[st] = smell_counts.get(st, 0) + 1` folded over the rows. -/
def countRows (rows : List String) : List (String × Nat) :=
  rows.foldl (fun d k => upsert d k ((lookupD d k).getD 0 + 1)) []

/-- Insert the per-category keys `prefix + safeKey k ↦ v` for each counted
category (the `for k, v in smell_counts.items()` loop). -/
def insertCategories (pre : String) (counts : List (String × Nat))
    (smells : List (String × Nat)) : List (String × Nat) :=
  counts.foldl (fun acc p => upsert acc (pre ++ safeKey p.1) p.2) smells

/-- `DesigniteRunner._parse_results`: builds the flat smell mapping from the
two result files. -/
def parse_results (designRows implRows : Option (List String)) : List (String × Nat) :=
  let smells0 : List (String × Nat) :=
    [("total_design_smells", 0), ("total_impl_smells", 0), ("total_code_smells", 0)]
  let smells1 :=
    match designRows with
    | none => smells0
    | some rows =>
      let counts := countRows rows
      insertCategories "design_" counts
        (upsert smells0 "total_design_smells" (sumVals counts))
  let smells2 :=
    match implRows with
    | none => smells1
    | some rows =>
      let counts := countRows rows
      insertCategories "impl_" counts
        (upsert smells1 "total_impl_smells" (sumVals counts))
  upsert smells2 "total_code_smells"
    ((lookupD smells2 "total_design_smells").getD 0 +
      (lookupD smells2 "total_impl_smells").getD 0)

/-- `s.startswith(pre)`: prefix test on the character sequences (the
built-in `String.startsWith` does not reduce in the kernel). -/
def strStartsWith (s pre : String) : Bool :=
  pre.data.isPrefixOf s.data

/-- Sum of the values of the entries whose key starts with `pre`
("the per-category `design_*` counts in the mapping"). -/
def prefixedSum (pre : String) (m : List (String × Nat)) : Nat :=
  sumVals (m.filter (fun p => strStartsWith p.1 pre))

/-! ## Calendar arithmetic

Instants are day numbers of the proleptic Gregorian calendar (day 0 =
1970-01-01), the calendar implemented by Python's `datetime.date` /
`timedelta(days=…)`.  `daysFromCivil` is the standard civil-from-date
conversion (Hinnant's algorithm), used only to name concrete dates. -/

/-- Day number of the civil date `y-m-d` (proleptic Gregorian, epoch 1970-01-01). -/
def daysFromCivil (y m d : Int) : Int :=
  let y2 := if m ≤ 2 then y - 1 else y
  let era := (if 0 ≤ y2 then y2 else y2 - 399).tdiv 400
  let yoe := y2 - era * 400
  let doy := (153 * (m + (if 2 < m then -3 else 9)) + 2).tdiv 5 + d - 1
  let doe := yoe * 365 + yoe.tdiv 4 - yoe.tdiv 100 + doy
  era * 146097 + doe - 719468

/-- `DAYS_PER_YEAR = 365` (08_temporal_extraction.py line 48). -/
def DAYS_PER_YEAR : Int := 365

/-- `MAX_PROJECT_YEARS = 5` (08_temporal_extraction.py line 47). -/
def MAX_PROJECT_YEARS : Nat := 5

/-- `snapshot_date = first_commit_date + timedelta(days=year_n * DAYS_PER_YEAR)`
(08_temporal_extraction.py line 656). -/
def targetDate (first : Int) (n : Nat) : Int :=
  first + (n : Int) * DAYS_PER_YEAR

/-! ## Git working-tree model

`GitHelper` (08_temporal_extraction.py lines 160-252).  A repository's
clone is a set of branch names that `git checkout <branch>` resolves; the
working-tree state is the currently checked-out ref. -/

/-- The branch names of a local clone that `git checkout` can resolve. -/
structure GitRepo where
  branches : List String
deriving DecidableEq

/-- The working-tree state: the currently checked-out ref (branch or commit). -/
structure RepoSt where
  head : String
deriving DecidableEq

/-- `GitHelper.checkout(repo_dir, commit_hash)`: a forced checkout of a
commit; `ok` is whether the git command succeeded (on success HEAD moves
to the commit, on failure the tree is unchanged). -/
def checkoutCommit (st : RepoSt) (c : String) (ok : Bool) : RepoSt × Bool :=
  if ok then ({ head := c }, true) else (st, false)

/-- `git checkout <branch> --force`: succeeds iff the branch resolves. -/
def checkoutBranch (g : GitRepo) (st : RepoSt) (b : String) : RepoSt × Bool :=
  if b ∈ g.branches then ({ head := b }, true) else (st, false)

/-- The `for branch in [...]` loop of `GitHelper.checkout_default_branch`:
try each candidate in order, stopping at the first that succeeds. -/
def tryBranches (g : GitRepo) (st : RepoSt) : List String → RepoSt × Bool
  | [] => (st, false)
  | b :: rest =>
    match checkoutBranch g st b with
    | (st2, true) => (st2, true)
    | (_, false) => tryBranches g st rest

/-- The fixed candidate list of `GitHelper.checkout_default_branch`
(08_temporal_extraction.py line 210). -/
def defaultBranchCandidates : List String := ["main", "master"]

/-- `GitHelper.checkout_default_branch(repo_dir)` (lines 207-220). -/
def checkout_default_branch (g : GitRepo) (st : RepoSt) : RepoSt × Bool :=
  tryBranches g st defaultBranchCandidates

/-! ## Snapshot records and the per-repository orchestrator

`TemporalExtractionPipeline.process_repo` (08_temporal_extraction.py
lines 628-721).  Record values are strings, integers, rationals (Python
floats, whose rounding is irrelevant to the claims) or `pynone`
(Python `None`). -/

/-- A Python scalar value stored in a snapshot record. -/
inductive Val where
  | str : String → Val
  | int : Int → Val
  | rat : Rat → Val
  | pynone : Val
deriving DecidableEq

/-- `compute_community_smell_indicators(metrics)` (lines 494-523). -/
def compute_community_smell_indicators (m : List (String × Val)) : List (String × Val) :=
  let bf := (lookupD m "bus_factor_number").getD Val.pynone
  let loneWolf : Val :=
    match bf with
    | Val.rat q => if (9 : Rat) / 10 < q then Val.int 1 else Val.int 0
    | _ => Val.int 0
  let prc := (lookupD m "pr_count").getD (Val.int 0)
  let isc := (lookupD m "issue_count").getD (Val.int 0)
  let radioSilence : Val :=
    if prc = Val.int 0 ∧ isc = Val.int 0 then Val.int 1 else Val.int 0
  let ac := (lookupD m "author_count").getD (Val.int 0)
  let orgSiloProxy : Val :=
    match ac, bf with
    | Val.int a, Val.rat q => if 5 ≤ a ∧ (7 : Rat) / 10 < q then Val.int 1 else Val.int 0
    | _, _ => Val.int 0
  [("lone_wolf", loneWolf), ("radio_silence", radioSilence),
   ("org_silo", Val.int 0), ("org_silo_proxy", orgSiloProxy)]

/-- Outcome of the `java -jar DesigniteJava.jar …` subprocess in
`DesigniteRunner.run` (lines 418-443): completion with some return code
and the two (possibly missing) result files, a wall-clock timeout, or
another exception while launching. -/
inductive DesigniteExec where
  | completed : Int → Option (List String) → Option (List String) → DesigniteExec
  | timedOut : DesigniteExec
  | launchError : DesigniteExec
deriving DecidableEq

/-- `DesigniteRunner.run(source_dir, output_dir)`: a timeout or launch
error yields the empty mapping; completion (any return code) parses the
result files. -/
def DesigniteRunner_run (e : DesigniteExec) : List (String × Nat) :=
  match e with
  | DesigniteExec.completed _ dRows iRows => parse_results dRows iRows
  | DesigniteExec.timedOut => []
  | DesigniteExec.launchError => []

/-- Environment of one project-year iteration: the commit resolved by
`get_last_commit_before`, whether `git checkout <commit>` succeeds, the
Designite subprocess outcome, the social-metrics mapping returned by
`SocialMetricsExtractor.extract_for_period`, and the dry-run commit count. -/
structure YearEnv where
  commit : Option String
  checkoutOk : Bool
  exec : DesigniteExec
  social : List (String × Val)
  commitCountUntil : Int

/-- Pipeline configuration: whether `self.designite` is set, whether
`self.api` (a GitHub token) is available, and `--dry-run`. -/
structure PipeCfg where
  designiteOn : Bool
  socialOn : Bool
  dryRun : Bool

/-- Repository identity fields of a snapshot record. -/
structure RepoMeta where
  name : String
  owner : String
  slug : String

/-- The `year_result` dict literal (lines 671-679), with dates as day
numbers. -/
def baseRecord (meta : RepoMeta) (first : Int) (n : Nat) (c : String) :
    List (String × Val) :=
  [("repo_name", Val.str meta.name), ("owner", Val.str meta.owner),
   ("repo_slug", Val.str meta.slug), ("project_year", Val.int n),
   ("snapshot_date", Val.int (targetDate first n)),
   ("first_commit_date", Val.int first),
   ("snapshot_commit", Val.str (c.take 12))]

/-- The record built by one loop iteration of `process_repo` (lines
665-715), without the git-state threading: `none` when no commit precedes
the target date (`continue`). -/
def yearRecord (cfg : PipeCfg) (meta : RepoMeta) (first : Int) (n : Nat)
    (env : YearEnv) : Option (List (String × Val)) :=
  match env.commit with
  | none => none
  | some c =>
    let r0 := baseRecord meta first n c
    let r1 :=
      if cfg.designiteOn ∧ ¬ cfg.dryRun then
        if env.checkoutOk then
          dictUpdate r0 ((DesigniteRunner_run env.exec).map (fun p => (p.1, Val.int p.2)))
        else r0
      else r0
    if cfg.socialOn ∧ ¬ cfg.dryRun then
      some (dictUpdate (dictUpdate r1 env.social)
        (compute_community_smell_indicators env.social))
    else if cfg.dryRun then
      some (dictUpdate r1 [("commit_count", Val.int env.commitCountUntil)])
    else some r1

/-- Git-state effect of one loop iteration of `process_repo`: when
Designite runs, the snapshot commit is checked out and afterwards the
default branch is restored (line 692); a failed checkout leaves the tree
unchanged and skips Designite. -/
def yearGitStep (cfg : PipeCfg) (g : GitRepo) (env : YearEnv) (st : RepoSt) : RepoSt :=
  match env.commit with
  | none => st
  | some c =>
    if cfg.designiteOn ∧ ¬ cfg.dryRun then
      match checkoutCommit st c env.checkoutOk with
      | (stc, true) => (checkout_default_branch g stc).1
      | (_, false) => st
    else st

/-- The `for year_n in range(1, self.max_years + 1)` loop (lines 655-715):
starting at offset `n` with `fuel` iterations left, stop at the first
target date after `now`, otherwise build the record (skipping offsets with
no qualifying commit) and recurse. -/
def processYearsFrom (cfg : PipeCfg) (g : GitRepo) (meta : RepoMeta)
    (envs : Nat → YearEnv) (first now : Int) :
    Nat → Nat → RepoSt → List (List (String × Val)) × RepoSt
  | _, 0, st => ([], st)
  | n, Nat.succ fuel, st =>
    if now < targetDate first n then ([], st)
    else
      let r := yearRecord cfg meta first n (envs n)
      let st1 := yearGitStep cfg g (envs n) st
      let (rest, st2) := processYearsFrom cfg g meta envs first now (n + 1) fuel st1
      (r.toList ++ rest, st2)

/-- Per-repository environment: whether the clone exists or succeeds, the
origin (first-commit) date, and each project-year's environment. -/
structure RepoEnv where
  cloneOk : Bool
  firstCommit : Option Int
  years : Nat → YearEnv

/-- `TemporalExtractionPipeline.process_repo(repo)` (lines 628-721):
returns the per-year records and the final working-tree state.  A failed
clone or an unresolvable origin date returns early with no records (and,
per the source, without reaching the final default-branch restore). -/
def process_repo (cfg : PipeCfg) (g : GitRepo) (meta : RepoMeta) (env : RepoEnv)
    (now : Int) (maxYears : Nat) (st : RepoSt) :
    List (List (String × Val)) × RepoSt :=
  if env.cloneOk = false then ([], st)
  else
    match env.firstCommit with
    | none => ([], st)
    | some first =>
      let (recs, st1) := processYearsFrom cfg g meta env.years first now 1 maxYears st
      (recs, (checkout_default_branch g st1).1)

/-! ## The run loop and checkpointing

`TemporalExtractionPipeline.run` (lines 723-776) and `_save_results`
(lines 778-817).  Each repository contributes `some rows`
(`process_repo` returned normally) or `none` (an `Exception` was caught
by the loop's `try`, leaving the accumulator unchanged).  A save event is
`(isCheckpoint, snapshot of the accumulated rows)`; `_save_results`
returns without writing when the accumulated list is empty.  Early
termination (an interrupt that is not an `Exception`, e.g.
`KeyboardInterrupt`) propagates between iterations, so the final save
after the loop is never reached. -/

/-- `_save_results(results, …)`: emits one save event unless `results`
is empty (the `if not results: return` guard). -/
def save_results {ρ : Type} (acc : List ρ) (isCheckpoint : Bool) :
    List (Bool × List ρ) :=
  if acc.isEmpty then [] else [(isCheckpoint, acc)]

/-- All rows accumulated from a prefix of repository outcomes
(`all_results.extend(results)` for the non-raising repositories). -/
def collectAll {ρ : Type} (repos : List (Option (List ρ))) : List ρ :=
  repos.foldl (fun acc o => match o with | some rs => acc ++ rs | none => acc) []

/-- The `for i, repo in enumerate(repos)` loop of `run` (lines 749-763):
returns the checkpoint save events and the final accumulator.  A
checkpoint is attempted after every repository `i` with `(i+1) % 10 = 0`. -/
def runLoop {ρ : Type} : List (Option (List ρ)) → Nat → List ρ →
    List (Bool × List ρ) × List ρ
  | [], _, acc => ([], acc)
  | o :: rest, i, acc =>
    let acc2 := match o with | some rs => acc ++ rs | none => acc
    let evs := if (i + 1) % 10 = 0 then save_results acc2 true else []
    let (restEvs, accF) := runLoop rest (i + 1) acc2
    (evs ++ restEvs, accF)

/-- `TemporalExtractionPipeline.run` completing normally: the loop's
checkpoint saves followed by the final save (line 766). -/
def pipeline_run {ρ : Type} (repos : List (Option (List ρ))) :
    List (Bool × List ρ) :=
  let (evs, accF) := runLoop repos 0 []
  evs ++ save_results accF false

/-- `TemporalExtractionPipeline.run` interrupted between iterations after
`k` repositories: the loop stops and the final save is never executed
(there is no `try`/`finally` around the loop). -/
def pipeline_run_interrupted {ρ : Type} (repos : List (Option (List ρ)))
    (k : Nat) : List (Bool × List ρ) :=
  (runLoop (repos.take k) 0 []).1

/-! ## The operator-supplied start index

`main` in 08_temporal_extraction.py parses `--start-from` (lines 867-868)
but `run` iterates `enumerate(repos)` without consulting it; `main` in
08b_run_designite_temporal.py skips rows with `i < args.start_from`
(lines 184-186). -/

/-- Indices processed by `TemporalExtractionPipeline.run`: the loop at
lines 749-755 enumerates every repository; `args.start_from` is parsed
but never read by `run`. -/
def pipeline_run_indices (startFrom : Nat) (nRepos : Nat) : List Nat :=
  let _ := startFrom
  List.range nRepos

/-- Row indices processed by `08b_run_designite_temporal.main`:
`if i < args.start_from: continue`. -/
def designite_batch_indices (startFrom : Nat) (nRows : Nat) : List Nat :=
  (List.range nRows).filter (fun i => ¬ i < startFrom)

/-! ## The rate-limited GitHub REST client

`GitHubAPI` (08_temporal_extraction.py lines 63-154).  One `urlopen`
attempt has an outcome: a successful response carrying the two
rate-limit headers (counts reported by the server, hence naturals) and a
parsed body, an `HTTPError` carrying a status code and the parsed
`X-RateLimit-Reset` header (`int(e.headers.get(…, 0))`), or any other
exception (transport error, timeout, JSON decode failure).  Every
`time.sleep` becomes an explicit wait event (durations in seconds, as
rationals because `REQUEST_DELAY = 0.8`). -/

/-- An observable action of the client: sleeping, or issuing one request. -/
inductive ApiEvent where
  | wait : Rat → ApiEvent
  | request : ApiEvent
deriving DecidableEq

/-- Outcome of one `urllib.request.urlopen` attempt. -/
inductive HttpOutcome (α : Type) where
  | success : Nat → Nat → α → HttpOutcome α
  | httpError : Nat → Int → HttpOutcome α
  | exn : HttpOutcome α

/-- The mutable counters of a `GitHubAPI` instance. -/
structure ApiState where
  remaining : Int
  reset_time : Int
  request_count : Nat
deriving DecidableEq

/-- `GitHubAPI.__init__`: `remaining = 5000`, `reset_time = 0`. -/
def initApiState : ApiState :=
  { remaining := 5000, reset_time := 0, request_count := 0 }

/-- `REQUEST_DELAY = 0.8` (line 50). -/
def REQUEST_DELAY : Rat := 4 / 5

/-- The low-water mark of `_check_rate_limit` (line 78): `remaining < 50`. -/
def RATE_LIMIT_LOW_WATER : Int := 50

/-- The wait computed when rate-limited: `max(0, reset - time.time()) + 5`
(lines 79 and 111). -/
def rateLimitResetWait (reset now : Int) : Int :=
  max 0 (reset - now) + 5

/-- The wait for non-403 retryable failures: `5 * (attempt + 1)`
(lines 123 and 129). -/
def getLinearBackoff (attempt : Nat) : Int :=
  5 * ((attempt : Int) + 1)

/-- `GitHubAPI._check_rate_limit` (lines 76-81): sleep until the tracked
reset deadline plus a 5-second margin whenever the tracked budget is
below the low-water mark. -/
def check_rate_limit (st : ApiState) (now : Int) : List ApiEvent :=
  if st.remaining < RATE_LIMIT_LOW_WATER then
    [ApiEvent.wait ((rateLimitResetWait st.reset_time now : Int) : Rat)]
  else []

/-- The `for attempt in range(3)` loop of `GitHubAPI.get` (lines 97-132),
with `outs a` the outcome of the attempt-`a` request.  Returns the
response body (or `None`), the updated counters, and the event trace. -/
def getAttempts {α : Type} (now : Int) (outs : Nat → HttpOutcome α) :
    Nat → Nat → ApiState → Option α × ApiState × List ApiEvent
  | _, 0, st => (none, st, [])
  | a, Nat.succ fuel, st =>
    match outs a with
    | HttpOutcome.success rem rst body =>
      (some body,
       { remaining := (rem : Int), reset_time := (rst : Int),
         request_count := st.request_count + 1 },
       [ApiEvent.request, ApiEvent.wait REQUEST_DELAY])
    | HttpOutcome.httpError code rst =>
      if code = 403 then
        let (res, st2, evs) := getAttempts now outs (a + 1) fuel st
        (res, st2, [ApiEvent.request,
          ApiEvent.wait ((rateLimitResetWait rst now : Int) : Rat)] ++ evs)
      else if code = 404 then (none, st, [ApiEvent.request])
      else if code = 422 then (none, st, [ApiEvent.request])
      else if a < 2 then
        let (res, st2, evs) := getAttempts now outs (a + 1) fuel st
        (res, st2, [ApiEvent.request,
          ApiEvent.wait ((getLinearBackoff a : Int) : Rat)] ++ evs)
      else (none, st, [ApiEvent.request])
    | HttpOutcome.exn =>
      if a < 2 then
        let (res, st2, evs) := getAttempts now outs (a + 1) fuel st
        (res, st2, [ApiEvent.request,
          ApiEvent.wait ((getLinearBackoff a : Int) : Rat)] ++ evs)
      else (none, st, [ApiEvent.request])

/-- `GitHubAPI.get(url, params)` (lines 83-132): the rate-limit check,
then up to three attempts.  Every exception raised inside the loop is
caught by its handlers, so the embedding is total and `none` models the
`return None` soft failure. -/
def GitHubAPI_get {α : Type} (st : ApiState) (now : Int)
    (outs : Nat → HttpOutcome α) : Option α × ApiState × List ApiEvent :=
  let pre := check_rate_limit st now
  let (res, st2, evs) := getAttempts now outs 0 3 st
  (res, st2, pre ++ evs)

/-- An attempt outcome on which `GitHubAPI.get` retries (or, on the last
attempt, gives up with `None`): 403, any status other than 404/422, or an
exception.  Success, 404 and 422 terminate the loop instead. -/
def retryableOutcome {α : Type} : HttpOutcome α → Bool
  | HttpOutcome.success _ _ _ => false
  | HttpOutcome.httpError code _ => ¬ (code = 404 ∨ code = 422)
  | HttpOutcome.exn => true

/-! ## The GraphQL helper

`runGraphqlRequest` (graphqlAnalysisHelper.py lines 12-58).  Each attempt
first sleeps `random.randint(1, 4)` seconds (the jitter), then posts the
query.  An attempt outcome is a network-level exception or a response
with a status code, an optional `data` field, an errors flag, and the
optional `X-RateLimit-Reset` header.  Unexpected statuses and retry
exhaustion raise, modelled by `Except.error`. -/

/-- Outcome of one `requests.post` attempt. -/
inductive GqlOutcome (α : Type) where
  | netError : GqlOutcome α
  | resp : Nat → Option α → Bool → Option Int → GqlOutcome α

/-- `random.randint(1, 4)`: the jitter sleep drawn on attempt `a` from
the random source `rand`. -/
def jitterSleep (rand : Nat → Nat) (a : Nat) : Nat :=
  1 + rand a % 4

/-- The backoff for transient HTTP failures: `2 ** (attempt + 2)` (line 41). -/
def gqlHttpBackoff (a : Nat) : Rat :=
  2 ^ (a + 2)

/-- The backoff for network errors and GraphQL-level errors: `2 ** attempt`
(lines 26 and 36). -/
def gqlNetBackoff (a : Nat) : Rat :=
  2 ^ a

/-- The wait derived from a rate-limit reset hint:
`min(max(int(reset_time) - int(time.time()), 10), 300)` (lines 46-47). -/
def gqlHintWait (reset now : Int) : Int :=
  min (max (reset - now) 10) 300

/-- The `for attempt in range(max_retries)` loop of `runGraphqlRequest`,
starting at attempt `a` with `fuel` iterations left.  `maxRetries` is only
used for the final error message. -/
def gqlAttempts {α : Type} (now : Int) (rand : Nat → Nat)
    (outs : Nat → GqlOutcome α) (maxRetries : Nat) :
    Nat → Nat → Except String α × List ApiEvent
  | _, 0 => (Except.error ("Query failed after " ++ toString maxRetries ++ " retries"), [])
  | a, Nat.succ fuel =>
    let jitter : List ApiEvent := [ApiEvent.wait ((jitterSleep rand a : Nat) : Rat)]
    match outs a with
    | GqlOutcome.netError =>
      let (res, evs) := gqlAttempts now rand outs maxRetries (a + 1) fuel
      (res, jitter ++ [ApiEvent.wait (gqlNetBackoff a)] ++ evs)
    | GqlOutcome.resp status data? hasErrors reset? =>
      if h200 : status = 200 ∧ data?.isSome then
        (Except.ok (data?.get h200.2), jitter ++ [ApiEvent.request])
      else if status = 200 ∧ hasErrors then
        let (res, evs) := gqlAttempts now rand outs maxRetries (a + 1) fuel
        (res, jitter ++ [ApiEvent.request, ApiEvent.wait (gqlNetBackoff a)] ++ evs)
      else if status = 403 ∨ status = 429 ∨ status = 502 ∨ status = 503 then
        let w : Rat :=
          if (status = 403 ∨ status = 429) ∧ reset?.isSome then
            ((gqlHintWait (reset?.getD 0) now : Int) : Rat)
          else gqlHttpBackoff a
        let (res, evs) := gqlAttempts now rand outs maxRetries (a + 1) fuel
        (res, jitter ++ [ApiEvent.request, ApiEvent.wait w] ++ evs)
      else
        (Except.error ("Query execution failed with code " ++ toString status),
         jitter ++ [ApiEvent.request])

/-- `runGraphqlRequest(pat, query, max_retries=5)`: raises (an
`Except.error`) on unexpected statuses and after retry exhaustion. -/
def runGraphqlRequest {α : Type} (now : Int) (rand : Nat → Nat)
    (outs : Nat → GqlOutcome α) (maxRetries : Nat := 5) :
    Except String α × List ApiEvent :=
  gqlAttempts now rand outs maxRetries 0 maxRetries

/-- A GraphQL attempt outcome that the helper retries: a network error, a
200 response carrying `errors` and no `data`, or a 403/429/502/503. -/
def gqlTransient {α : Type} : GqlOutcome α → Bool
  | GqlOutcome.netError => true
  | GqlOutcome.resp status data? hasErrors _ =>
    (status = 200 ∧ data?.isNone ∧ hasErrors) ∨
      status = 403 ∨ status = 429 ∨ status = 502 ∨ status = 503

/-! ## Lemmas about the project-year loop -/

theorem targetDate_mono (first : Int) {a b : Nat} (h : a ≤ b) :
    targetDate first a ≤ targetDate first b := by
  simp only [targetDate, DAYS_PER_YEAR]
  have : (a : Int) ≤ (b : Int) := Int.ofNat_le.mpr h
  nlinarith

theorem processYearsFrom_fst (cfg : PipeCfg) (g : GitRepo) (meta : RepoMeta)
    (envs : Nat → YearEnv) (first now : Int) :
    ∀ (fuel n : Nat) (st : RepoSt),
      (processYearsFrom cfg g meta envs first now n fuel st).1 =
        ((List.range' n fuel).takeWhile
            (fun m => decide (targetDate first m ≤ now))).filterMap
          (fun m => yearRecord cfg meta first m (envs m)) := by
  intro fuel
  induction fuel with
  | zero => intro n st; simp [processYearsFrom, List.range']
  | succ fuel ih =>
    intro n st
    rw [List.range'_succ]
    by_cases h : now < targetDate first n
    · have hdec : decide (targetDate first n ≤ now) = false := by
        simp [decide_eq_false_iff_not, not_le, h]
      simp [processYearsFrom, h, List.takeWhile, hdec]
    · have hdec : decide (targetDate first n ≤ now) = true := by
        simp [decide_eq_true_eq, not_lt.mp h]
      simp only [processYearsFrom, if_neg h, List.takeWhile, hdec]
      rcases hr : yearRecord cfg meta first n (envs n) with _ | r
      · simp [hr, ih (n + 1) (yearGitStep cfg g (envs n) st), List.filterMap_cons, hr]
      · simp [hr, ih (n + 1) (yearGitStep cfg g (envs n) st), List.filterMap_cons, hr]

theorem mem_takeWhile_target (first now : Int) :
    ∀ (len s n : Nat),
      (n ∈ (List.range' s len).takeWhile
          (fun m => decide (targetDate first m ≤ now))) ↔
        (s ≤ n ∧ n < s + len ∧ targetDate first n ≤ now) := by
  intro len
  induction len with
  | zero =>
    intro s n
    simp [List.range']
    omega
  | succ len ih =>
    intro s n
    rw [List.range'_succ]
    by_cases hp : targetDate first s ≤ now
    · have hdec : decide (targetDate first s ≤ now) = true := by
        simp [decide_eq_true_eq, hp]
      simp only [List.takeWhile, hdec, List.mem_cons]
      constructor
      · intro h
        rcases h with h | h
        · subst h; exact ⟨Nat.le_refl _, by omega, hp⟩
        · have := (ih (s + 1) n).mp h
          exact ⟨by omega, by omega, this.2.2⟩
      · intro ⟨h1, h2, h3⟩
        by_cases hn : n = s
        · exact Or.inl hn
        · exact Or.inr ((ih (s + 1) n).mpr ⟨by omega, by omega, h3⟩)
    · have hdec : decide (targetDate first s ≤ now) = false := by
        simp [decide_eq_false_iff_not, hp]
      simp only [List.takeWhile, hdec]
      simp only [List.not_mem_nil, false_iff]
      intro ⟨h1, h2, h3⟩
      exact hp (le_trans (targetDate_mono first h1) h3)

/-- C1: for every repository with a resolvable origin date, the
project-year targets are `origin + n * 365 days` for `n = 1..max`,
strictly increasing in `n`; iteration halts at the first target date
exceeding "now" (records from earlier offsets remain in the result), so
an offset is attempted exactly when it is in range and its target is not
in the future. -/
theorem C1_project_year_targets (cfg : PipeCfg) (g : GitRepo) (meta : RepoMeta)
    (env : RepoEnv) (now : Int) (maxYears : Nat) (st : RepoSt) (first : Int)
    (hclone : env.cloneOk = true) (hfirst : env.firstCommit = some first) :
    (∀ n : Nat, targetDate first n < targetDate first (n + 1)) ∧
    (process_repo cfg g meta env now maxYears st).1 =
      ((List.range' 1 maxYears).takeWhile
          (fun m => decide (targetDate first m ≤ now))).filterMap
        (fun m => yearRecord cfg meta first m (env.years m)) ∧
    (∀ n : Nat,
      (n ∈ (List.range' 1 maxYears).takeWhile
          (fun m => decide (targetDate first m ≤ now))) ↔
        (1 ≤ n ∧ n ≤ maxYears ∧ targetDate first n ≤ now)) := by
  refine ⟨?_, ?_, ?_⟩
  · intro n
    simp only [targetDate, DAYS_PER_YEAR]
    have : (n : Int) < ((n + 1 : Nat) : Int) := by exact_mod_cast Nat.lt_succ_self n
    nlinarith
  · simp only [process_repo, hclone, hfirst]
    simp only [Bool.true_eq_false, if_false]
    exact processYearsFrom_fst cfg g meta env.years first now maxYears 1 st
  · intro n
    rw [mem_takeWhile_target first now maxYears 1 n]
    omega

/-- Witness for C1 at a concrete instantiation. -/
theorem C1_project_year_targets_witness :
    (({ cloneOk := true, firstCommit := some 0,
        years := fun _ => { commit := some "abc", checkoutOk := true,
                            exec := DesigniteExec.timedOut, social := [],
                            commitCountUntil := 0 } } : RepoEnv).cloneOk = true) ∧
    (∀ n : Nat, targetDate 0 n < targetDate 0 (n + 1)) := by
  have h := C1_project_year_targets { designiteOn := false, socialOn := false, dryRun := false }
    { branches := ["main"] } { name := "r", owner := "o", slug := "s" }
    { cloneOk := true, firstCommit := some 0,
      years := fun _ => { commit := some "abc", checkoutOk := true,
                          exec := DesigniteExec.timedOut, social := [],
                          commitCountUntil := 0 } }
    1000 5 { head := "main" } 0 rfl rfl
  exact ⟨rfl, h.1⟩

/-- C8 counterexample: with origin date 2019-01-01, the year-5 target is
2023-12-31, not 2024-01-01 as the claim states (2020 is a leap year, and
a "project year" is exactly 365 days); likewise the year-6 target is
2024-12-30, not 2025-01-01. -/
theorem C8_counterexample :
    targetDate (daysFromCivil 2019 1 1) 5 = daysFromCivil 2023 12 31 ∧
    targetDate (daysFromCivil 2019 1 1) 5 ≠ daysFromCivil 2024 1 1 ∧
    targetDate (daysFromCivil 2019 1 1) 6 = daysFromCivil 2024 12 30 ∧
    targetDate (daysFromCivil 2019 1 1) 6 ≠ daysFromCivil 2025 1 1 := by
  decide

/-- C8 (amended): for origin date 2019-01-01, "now" = 2024-06-01 and
max-years = 5, snapshots are produced for project years 1 through 5 with
target dates 2020-01-01, 2020-12-31, 2021-12-31, 2022-12-31 and
2023-12-31; year 6 is never attempted — the loop is bounded at max-years
5, and its target 2024-12-30 would exceed "now" anyway. -/
theorem C8_scenario_amended :
    ((process_repo { designiteOn := false, socialOn := false, dryRun := false }
        { branches := ["main"] } { name := "r", owner := "o", slug := "s" }
        { cloneOk := true, firstCommit := some (daysFromCivil 2019 1 1),
          years := fun _ => { commit := some "abcdef123456abcd", checkoutOk := true,
                              exec := DesigniteExec.timedOut, social := [],
                              commitCountUntil := 0 } }
        (daysFromCivil 2024 6 1) 5 { head := "main" }).1.map
      (fun r => lookupD r "project_year") =
      [some (Val.int 1), some (Val.int 2), some (Val.int 3),
       some (Val.int 4), some (Val.int 5)]) ∧
    ((process_repo { designiteOn := false, socialOn := false, dryRun := false }
        { branches := ["main"] } { name := "r", owner := "o", slug := "s" }
        { cloneOk := true, firstCommit := some (daysFromCivil 2019 1 1),
          years := fun _ => { commit := some "abcdef123456abcd", checkoutOk := true,
                              exec := DesigniteExec.timedOut, social := [],
                              commitCountUntil := 0 } }
        (daysFromCivil 2024 6 1) 5 { head := "main" }).1.map
      (fun r => lookupD r "snapshot_date") =
      [some (Val.int (daysFromCivil 2020 1 1)), some (Val.int (daysFromCivil 2020 12 31)),
       some (Val.int (daysFromCivil 2021 12 31)), some (Val.int (daysFromCivil 2022 12 31)),
       some (Val.int (daysFromCivil 2023 12 31))]) ∧
    daysFromCivil 2024 6 1 < targetDate (daysFromCivil 2019 1 1) 6 := by
  refine ⟨by decide, by decide, by decide⟩

/-! ## Default-branch restoration (C2) -/

theorem checkout_default_branch_resolves (g : GitRepo) (st : RepoSt)
    (hb : "main" ∈ g.branches ∨ "master" ∈ g.branches) :
    (checkout_default_branch g st).1.head =
      (if "main" ∈ g.branches then "main" else "master") := by
  by_cases hm : "main" ∈ g.branches
  · simp [checkout_default_branch, defaultBranchCandidates, tryBranches,
      checkoutBranch, hm]
  · have hms : "master" ∈ g.branches := by
      rcases hb with h | h
      · exact absurd h hm
      · exact h
    simp [checkout_default_branch, defaultBranchCandidates, tryBranches,
      checkoutBranch, hm, hms]

/-- C2 counterexample: a clone whose only branch is `trunk`.  The restore
tries `main` and `master`, both fail, and after processing the working
tree is left detached on the snapshot commit — not on a default branch. -/
theorem C2_counterexample :
    (process_repo { designiteOn := true, socialOn := false, dryRun := false }
        { branches := ["trunk"] } { name := "r", owner := "o", slug := "s" }
        { cloneOk := true, firstCommit := some 0,
          years := fun _ => { commit := some "abcdef123456abcd", checkoutOk := true,
                              exec := DesigniteExec.timedOut, social := [],
                              commitCountUntil := 0 } }
        365 1 { head := "trunk" }).2.head = "abcdef123456abcd" ∧
    ¬ ((process_repo { designiteOn := true, socialOn := false, dryRun := false }
        { branches := ["trunk"] } { name := "r", owner := "o", slug := "s" }
        { cloneOk := true, firstCommit := some 0,
          years := fun _ => { commit := some "abcdef123456abcd", checkoutOk := true,
                              exec := DesigniteExec.timedOut, social := [],
                              commitCountUntil := 0 } }
        365 1 { head := "trunk" }).2.head ∈ defaultBranchCandidates) := by
  decide

/-- C2 (amended): after processing any cloned repository with a resolvable
origin date, the trailing restore is executed regardless of the success or
failure of checkout, metric collection or the static-analysis tool; it
tries the fixed ordered candidate list `["main", "master"]` and succeeds
on the first that resolves, so the working tree ends on a default branch
whenever at least one candidate resolves (a clone with neither branch is
left on whatever was last checked out). -/
theorem C2_default_branch_restore (cfg : PipeCfg) (g : GitRepo) (meta : RepoMeta)
    (env : RepoEnv) (now : Int) (maxYears : Nat) (st : RepoSt) (first : Int)
    (hclone : env.cloneOk = true) (hfirst : env.firstCommit = some first)
    (hb : "main" ∈ g.branches ∨ "master" ∈ g.branches) :
    (process_repo cfg g meta env now maxYears st).2.head =
      (if "main" ∈ g.branches then "main" else "master") ∧
    (process_repo cfg g meta env now maxYears st).2.head ∈ defaultBranchCandidates ∧
    (process_repo cfg g meta env now maxYears st).2.head ∈ g.branches := by
  have hrepo : (process_repo cfg g meta env now maxYears st).2 =
      (checkout_default_branch g
        (processYearsFrom cfg g meta env.years first now 1 maxYears st).2).1 := by
    simp [process_repo, hclone, hfirst]
  rw [hrepo, checkout_default_branch_resolves g _ hb]
  by_cases hm : "main" ∈ g.branches
  · simp [hm, defaultBranchCandidates]
  · have hms : "master" ∈ g.branches := by
      rcases hb with h | h
      · exact absurd h hm
      · exact h
    simp [hm, hms, defaultBranchCandidates]

/-- Witness for C2 (amended) on a clone whose default branch is `master`. -/
theorem C2_default_branch_restore_witness :
    (process_repo { designiteOn := true, socialOn := false, dryRun := false }
        { branches := ["master"] } { name := "r", owner := "o", slug := "s" }
        { cloneOk := true, firstCommit := some 0,
          years := fun _ => { commit := some "abcdef123456abcd", checkoutOk := false,
                              exec := DesigniteExec.launchError, social := [],
                              commitCountUntil := 0 } }
        365 2 { head := "master" }).2.head ∈ defaultBranchCandidates := by
  have h := C2_default_branch_restore
    { designiteOn := true, socialOn := false, dryRun := false }
    { branches := ["master"] } { name := "r", owner := "o", slug := "s" }
    { cloneOk := true, firstCommit := some 0,
      years := fun _ => { commit := some "abcdef123456abcd", checkoutOk := false,
                          exec := DesigniteExec.launchError, social := [],
                          commitCountUntil := 0 } }
    365 2 { head := "master" } 0 rfl rfl (Or.inr (by decide))
  exact h.2.1

/-! ## Checkpointing lemmas (C3) -/

theorem collectAll_foldl {ρ : Type} :
    ∀ (l : List (Option (List ρ))) (acc : List ρ),
      l.foldl (fun a o => match o with | some rs => a ++ rs | none => a) acc =
        acc ++ collectAll l := by
  intro l
  induction l with
  | nil => intro acc; simp [collectAll]
  | cons o rest ih =>
    intro acc
    rcases o with _ | rs
    · simp only [List.foldl, collectAll]
      rw [ih acc, ih (([] : List ρ))]
      simp
    · simp only [List.foldl, collectAll]
      rw [ih (acc ++ rs), ih (([] : List ρ) ++ rs)]
      simp

theorem collectAll_cons {ρ : Type} (o : Option (List ρ)) (rest : List (Option (List ρ))) :
    collectAll (o :: rest) =
      (match o with | some rs => rs | none => []) ++ collectAll rest := by
  rcases o with _ | rs
  · simp [collectAll, List.foldl]
  · simp only [collectAll, List.foldl]
    rw [collectAll_foldl rest (([] : List ρ) ++ rs)]
    simp [collectAll]

theorem runLoop_snd {ρ : Type} :
    ∀ (l : List (Option (List ρ))) (i : Nat) (acc : List ρ),
      (runLoop l i acc).2 = acc ++ collectAll l := by
  intro l
  induction l with
  | nil => intro i acc; simp [runLoop, collectAll]
  | cons o rest ih =>
    intro i acc
    rcases o with _ | rs
    · simp only [runLoop, collectAll_cons]
      rw [ih (i + 1) acc]
      simp
    · simp only [runLoop, collectAll_cons]
      rw [ih (i + 1) (acc ++ rs)]
      simp

theorem runLoop_cons {ρ : Type} (o : Option (List ρ)) (rest : List (Option (List ρ)))
    (i : Nat) (acc : List ρ) :
    runLoop (o :: rest) i acc =
      ((if (i + 1) % 10 = 0 then
          save_results (match o with | some rs => acc ++ rs | none => acc) true
        else []) ++
          (runLoop rest (i + 1)
            (match o with | some rs => acc ++ rs | none => acc)).1,
       (runLoop rest (i + 1)
          (match o with | some rs => acc ++ rs | none => acc)).2) := by
  simp only [runLoop]

theorem runLoop_checkpoint_mem {ρ : Type} :
    ∀ (l : List (Option (List ρ))) (i : Nat) (acc : List ρ) (j : Nat),
      j < l.length → (i + j + 1) % 10 = 0 →
      acc ++ collectAll (l.take (j + 1)) ≠ [] →
      (true, acc ++ collectAll (l.take (j + 1))) ∈ (runLoop l i acc).1 := by
  intro l
  induction l with
  | nil => intro i acc j h; simp at h
  | cons o rest ih =>
    intro i acc j hj hmod hne
    rcases o with _ | rs
    · rcases j with _ | j2
      · have hcoll : collectAll ((none :: rest).take 1) = ([] : List ρ) := by
          simp [collectAll, List.foldl]
        rw [hcoll] at hne ⊢
        have hmod2 : (i + 0 + 1) % 10 = 0 := hmod
        rw [runLoop_cons]
        simp only [if_pos (show (i + 1) % 10 = 0 by omega)]
        have hsave : save_results acc true = [(true, acc)] := by
          rw [save_results, if_neg]
          simp [List.isEmpty_iff]
          simpa using hne
        simp [hsave]
      · have hcoll : collectAll ((none :: rest).take (j2 + 2)) =
            collectAll (rest.take (j2 + 1)) := by
          rw [List.take_succ_cons, collectAll_cons]
          simp
        rw [hcoll] at hne ⊢
        have hmem := ih (i + 1) acc j2 (by simpa using hj) (by omega) hne
        rw [runLoop_cons]
        exact List.mem_append_right _ hmem
    · rcases j with _ | j2
      · have hcoll : collectAll ((some rs :: rest).take 1) = rs := by
          simp [collectAll, List.foldl]
        rw [hcoll] at hne ⊢
        rw [runLoop_cons]
        simp only [if_pos (show (i + 1) % 10 = 0 by omega)]
        have hsave : save_results (acc ++ rs) true = [(true, acc ++ rs)] := by
          rw [save_results, if_neg]
          simp [List.isEmpty_iff]
          simpa using hne
        simp [hsave]
      · have hcoll : collectAll ((some rs :: rest).take (j2 + 2)) =
            rs ++ collectAll (rest.take (j2 + 1)) := by
          rw [List.take_succ_cons, collectAll_cons]
        have hkey : acc ++ collectAll ((some rs :: rest).take (j2 + 2)) =
            (acc ++ rs) ++ collectAll (rest.take (j2 + 1)) := by
          rw [hcoll, List.append_assoc]
        rw [hkey] at hne ⊢
        have hmem := ih (i + 1) (acc ++ rs) j2 (by simpa using hj) (by omega) hne
        rw [runLoop_cons]
        exact List.mem_append_right _ hmem

/-- C3 counterexample: twelve repositories each yielding one row, with an
early termination (e.g. `KeyboardInterrupt`) after the eleventh.  The only
persist ever executed is the checkpoint after repository 10; no final save
happens, and the eleventh row is lost even though the run ended. -/
theorem C3_counterexample :
    pipeline_run_interrupted (List.replicate 12 (some [(0 : Nat)])) 11 =
      [(true, List.replicate 10 (0 : Nat))] ∧
    (∀ e ∈ pipeline_run_interrupted (List.replicate 12 (some [(0 : Nat)])) 11,
      e.1 = true) := by
  decide

/-- C3 (amended): the accumulated result set is persisted as a partial
table after every tenth processed repository, and a final persist happens
at normal run end (whenever anything was accumulated).  On early
termination the final persist is *not* executed — the loop has no
`finally` — but every completed block of ten repositories has already been
checkpointed, so data loss is bounded to at most one checkpoint interval
(the at most nine repositories past the last checkpoint, plus the one in
flight). -/
theorem C3_checkpointing {ρ : Type} (repos : List (Option (List ρ))) (k : Nat)
    (hk : k ≤ repos.length) :
    (collectAll repos ≠ [] →
      (pipeline_run repos).getLast? = some (false, collectAll repos)) ∧
    (∀ j, j < repos.length → (j + 1) % 10 = 0 →
      collectAll (repos.take (j + 1)) ≠ [] →
      (true, collectAll (repos.take (j + 1))) ∈ pipeline_run repos) ∧
    (collectAll (repos.take (10 * (k / 10))) ≠ [] →
      (true, collectAll (repos.take (10 * (k / 10)))) ∈
        pipeline_run_interrupted repos k) := by
  refine ⟨?_, ?_, ?_⟩
  · intro hne
    have hsnd := runLoop_snd repos 0 []
    simp only [List.nil_append] at hsnd
    simp only [pipeline_run, hsnd]
    rw [save_results, if_neg (by simpa [List.isEmpty_iff] using hne)]
    exact List.getLast?_concat _
  · intro j hj hmod hne
    have hmem := runLoop_checkpoint_mem repos 0 [] j hj (by omega)
      (by simpa using hne)
    simp only [List.nil_append] at hmem
    simp only [pipeline_run]
    exact List.mem_append_left _ hmem
  · intro hne
    set m := 10 * (k / 10) with hm
    have hm0 : m % 10 = 0 := by omega
    have hmk : m ≤ k := by omega
    rcases Nat.eq_zero_or_pos m with hz | hpos
    · rw [hz] at hne
      simp [collectAll] at hne
    · have htt : (repos.take k).take m = repos.take m := by
        rw [List.take_take]
        congr 1
        omega
      have hlen : m - 1 < (repos.take k).length := by
        rw [List.length_take]
        omega
      have hmem := runLoop_checkpoint_mem (repos.take k) 0 [] (m - 1) hlen
        (by omega) (by rw [show m - 1 + 1 = m by omega, htt]; simpa using hne)
      rw [show m - 1 + 1 = m by omega, htt] at hmem
      simpa [pipeline_run_interrupted] using hmem

/-- Witness for C3 (amended): 25 one-row repositories interrupted after
repository 25; the checkpoint after repository 20 is persisted. -/
theorem C3_checkpointing_witness :
    (true, List.replicate 20 (0 : Nat)) ∈
      pipeline_run_interrupted (List.replicate 25 (some [(0 : Nat)])) 25 := by
  have h := C3_checkpointing (List.replicate 25 (some [(0 : Nat)])) 25 (by decide)
  have hmem := h.2.2 (by decide)
  simpa using hmem

/-- C7: with start index 2 and a 3-entry repository list, the orchestrator
(`TemporalExtractionPipeline.run`) still processes indices 0, 1, 2 — the
parsed `--start-from` value is never read by `run`, contradicting the
flag's own help text ("index of the initial repo, to resume execution").
The companion batch script 08b does implement the skip, processing only
index 2. -/
theorem C7_start_index_ignored :
    pipeline_run_indices 2 3 = [0, 1, 2] ∧
    designite_batch_indices 2 3 = [2] := by
  decide

/-! ## Retry exhaustion (C4) -/

theorem getAttempts_none_of_retryable {α : Type} (now : Int)
    (outs : Nat → HttpOutcome α) (h : ∀ i, retryableOutcome (outs i) = true) :
    ∀ (fuel a : Nat) (st : ApiState), (getAttempts now outs a fuel st).1 = none := by
  intro fuel
  induction fuel with
  | zero => intro a st; simp [getAttempts]
  | succ fuel ih =>
    intro a st
    have hi := h a
    rcases houts : outs a with ⟨rem, rst, body⟩ | ⟨code, rst⟩ | _
    · rw [houts] at hi
      simp [retryableOutcome] at hi
    · rw [houts] at hi
      simp only [retryableOutcome] at hi
      have hcode : ¬ (code = 404 ∨ code = 422) := by
        simpa using hi
      by_cases h403 : code = 403
      · simp only [getAttempts, houts, if_pos h403]
        simp [ih]
      · have h404 : ¬ code = 404 := fun hc => hcode (Or.inl hc)
        have h422 : ¬ code = 422 := fun hc => hcode (Or.inr hc)
        by_cases ha : a < 2
        · simp only [getAttempts, houts, if_neg h403, if_neg h404, if_neg h422,
            if_pos ha]
          simp [ih]
        · simp [getAttempts, houts, h403, h404, h422, ha]
    · by_cases ha : a < 2
      · simp only [getAttempts, houts, if_pos ha]
        simp [ih]
      · simp [getAttempts, houts, ha]

theorem gqlAttempts_error_of_transient {α : Type} (now : Int) (rand : Nat → Nat)
    (outs : Nat → GqlOutcome α) (maxRetries : Nat)
    (h : ∀ i, gqlTransient (outs i) = true) :
    ∀ (fuel a : Nat), ∃ msg, (gqlAttempts now rand outs maxRetries a fuel).1 =
      Except.error msg := by
  intro fuel
  induction fuel with
  | zero =>
    intro a
    exact ⟨"Query failed after " ++ toString maxRetries ++ " retries", rfl⟩
  | succ fuel ih =>
    intro a
    have hi := h a
    rcases houts : outs a with _ | ⟨status, data?, hasErrors, reset?⟩
    · obtain ⟨msg, hmsg⟩ := ih (a + 1)
      refine ⟨msg, ?_⟩
      simp only [gqlAttempts, houts]
      simp [hmsg]
    · rw [houts] at hi
      simp only [gqlTransient, decide_eq_true_eq] at hi
      have hno200 : ¬ (status = 200 ∧ data?.isSome) := by
        rintro ⟨h200, hsome⟩
        rcases hi with ⟨_, hnone, _⟩ | h4 | h4 | h4 | h4
        · rw [Option.isNone_iff_eq_none] at hnone
          rw [hnone] at hsome
          simp at hsome
        all_goals omega
      obtain ⟨msg, hmsg⟩ := ih (a + 1)
      refine ⟨msg, ?_⟩
      simp only [gqlAttempts, houts, dif_neg hno200]
      rcases hi with ⟨h200, _, herr⟩ | h4 | h4 | h4 | h4
      · have : status = 200 ∧ hasErrors = true := ⟨h200, herr⟩
        simp [this, hmsg]
      all_goals
        have hcond : status = 403 ∨ status = 429 ∨ status = 502 ∨ status = 503 := by
          omega
        have h200f : ¬ (status = 200 ∧ hasErrors = true) := by
          rintro ⟨h200, _⟩; omega
        simp [h200f, hcond, hmsg]

/-- C4 counterexample: five consecutive HTTP 502 responses make
`runGraphqlRequest` raise `Exception("Query failed after 5 retries")` —
a remote-API call whose retry exhaustion aborts rather than returning
"no result". -/
theorem C4_counterexample :
    (runGraphqlRequest (α := Unit) 0 (fun _ => 0)
        (fun _ => GqlOutcome.resp 502 none false none) 5).1 =
      Except.error "Query failed after 5 retries" := by
  rfl

/-- C4 (amended): `GitHubAPI.get` returns `None` (treated by callers as
"no data available") once its three attempts are exhausted by retryable
failures and never raises, but `runGraphqlRequest` instead raises an
exception when its retries are exhausted. -/
theorem C4_retry_exhaustion {α β : Type} (st : ApiState) (now : Int)
    (outs : Nat → HttpOutcome α) (gnow : Int) (grand : Nat → Nat)
    (gouts : Nat → GqlOutcome β) (maxRetries : Nat)
    (h1 : ∀ a, retryableOutcome (outs a) = true)
    (h2 : ∀ a, gqlTransient (gouts a) = true) :
    (GitHubAPI_get st now outs).1 = none ∧
    ∃ msg, (runGraphqlRequest gnow grand gouts maxRetries).1 = Except.error msg := by
  constructor
  · simp only [GitHubAPI_get]
    exact getAttempts_none_of_retryable now outs h1 3 0 st
  · exact gqlAttempts_error_of_transient gnow grand gouts maxRetries h2 maxRetries 0

/-- Witness for C4 (amended): three transport errors exhaust
`GitHubAPI.get`; five network errors exhaust `runGraphqlRequest`. -/
theorem C4_retry_exhaustion_witness :
    (GitHubAPI_get (α := Unit) initApiState 0 (fun _ => HttpOutcome.exn)).1 = none := by
  have h := C4_retry_exhaustion (α := Unit) (β := Unit) initApiState 0
    (fun _ => HttpOutcome.exn) 0 (fun _ => 0) (fun _ => GqlOutcome.netError) 5
    (fun _ => rfl) (fun _ => rfl)
  exact h.1

/-! ## Backoff and wait shapes (C5) -/

/-- The number of requests actually issued in an event trace. -/
def countRequests : List ApiEvent → Nat
  | [] => 0
  | ApiEvent.request :: rest => countRequests rest + 1
  | ApiEvent.wait _ :: rest => countRequests rest

theorem countRequests_append (a b : List ApiEvent) :
    countRequests (a ++ b) = countRequests a + countRequests b := by
  induction a with
  | nil => simp [countRequests]
  | cons e rest ih =>
    rcases e with w | _
    · simp [countRequests, ih]
    · simp [countRequests, ih]
      omega

theorem getAttempts_request_count {α : Type} (now : Int) (outs : Nat → HttpOutcome α) :
    ∀ (fuel a : Nat) (st : ApiState),
      countRequests (getAttempts now outs a fuel st).2.2 ≤ fuel := by
  intro fuel
  induction fuel with
  | zero => intro a st; simp [getAttempts, countRequests]
  | succ fuel ih =>
    intro a st
    rcases hrec : getAttempts now outs (a + 1) fuel st with ⟨res, st2, evs⟩
    have hc : countRequests evs ≤ fuel := by
      have h0 := ih (a + 1) st
      rw [hrec] at h0
      exact h0
    rcases houts : outs a with ⟨rem, rst, body⟩ | ⟨code, rst⟩ | _
    · simp [getAttempts, houts, countRequests]
    · by_cases h403 : code = 403
      · simp only [getAttempts, houts, if_pos h403, hrec]
        show countRequests evs + 1 ≤ fuel + 1
        omega
      · by_cases h404 : code = 404
        · simp [getAttempts, houts, h403, h404, countRequests]
        · by_cases h422 : code = 422
          · simp [getAttempts, houts, h403, h404, h422, countRequests]
          · by_cases ha : a < 2
            · simp only [getAttempts, houts, if_neg h403, if_neg h404, if_neg h422,
                if_pos ha, hrec]
              show countRequests evs + 1 ≤ fuel + 1
              omega
            · simp [getAttempts, houts, h403, h404, h422, ha, countRequests]
    · by_cases ha : a < 2
      · simp only [getAttempts, houts, if_pos ha, hrec]
        show countRequests evs + 1 ≤ fuel + 1
        omega
      · simp [getAttempts, houts, ha, countRequests]

theorem gqlAttempts_request_count {α : Type} (now : Int) (rand : Nat → Nat)
    (outs : Nat → GqlOutcome α) (maxRetries : Nat) :
    ∀ (fuel a : Nat),
      countRequests (gqlAttempts now rand outs maxRetries a fuel).2 ≤ fuel := by
  intro fuel
  induction fuel with
  | zero => intro a; simp [gqlAttempts, countRequests]
  | succ fuel ih =>
    intro a
    rcases hrec : gqlAttempts now rand outs maxRetries (a + 1) fuel with ⟨res, evs⟩
    have hc : countRequests evs ≤ fuel := by
      have h0 := ih (a + 1)
      rw [hrec] at h0
      exact h0
    rcases houts : outs a with _ | ⟨status, data?, hasErrors, reset?⟩
    · simp only [gqlAttempts, houts, hrec]
      show countRequests evs ≤ fuel + 1
      omega
    · by_cases h200 : status = 200 ∧ data?.isSome
      · simp [gqlAttempts, houts, dif_pos h200, countRequests]
      · simp only [gqlAttempts, houts, dif_neg h200]
        by_cases herr : status = 200 ∧ hasErrors = true
        · simp only [if_pos herr, hrec]
          show countRequests evs + 1 ≤ fuel + 1
          omega
        · simp only [if_neg herr]
          by_cases htr : status = 403 ∨ status = 429 ∨ status = 502 ∨ status = 503
          · simp only [if_pos htr, hrec]
            show countRequests evs + 1 ≤ fuel + 1
            omega
          · simp [if_neg htr, countRequests]

/-- C5 counterexample: a 403 whose rate-limit-reset hint lies 10^9 seconds
ahead makes `GitHubAPI.get` sleep 10^9 + 5 seconds — the hint-based wait is
`max(0, reset - now) + 5`, not capped by any ceiling (the only ceiling in
the codebase, 300 s, belongs to `runGraphqlRequest`). -/
theorem C5_counterexample :
    ApiEvent.wait ((1000000005 : Int) : Rat) ∈
      (GitHubAPI_get (α := Unit) initApiState 0
        (fun a => if a = 0 then HttpOutcome.httpError 403 1000000000
                  else HttpOutcome.httpError 404 0)).2.2 ∧
    rateLimitResetWait 1000000000 0 = 1000000005 ∧
    gqlHintWait 1000000000 0 = 300 ∧
    ¬ ((1000000005 : Rat) ≤ 300) := by
  refine ⟨by decide, by decide, by decide, by decide⟩

/-- C5 (amended): `runGraphqlRequest` retries transient failures with
doubling (exponential) backoff plus a random 1–4 s jitter sleep before
every attempt, and a reset hint is used clamped to [10 s, 300 s];
`GitHubAPI.get` also retries transient failures with bounded attempts,
but its 403 hint wait `max(0, reset - now) + 5` is unbounded in the hint,
and its other-failure backoff `5 * (attempt + 1)` is linear (its third
wait is 15 s, not 20 s) and jitter-free.  Both clients issue at most
their bounded attempt count of requests (3 and `max_retries`). -/
theorem C5_backoff_shapes :
    (∀ a : Nat, gqlHttpBackoff (a + 1) = 2 * gqlHttpBackoff a) ∧
    (∀ a : Nat, gqlNetBackoff (a + 1) = 2 * gqlNetBackoff a) ∧
    (∀ (rand : Nat → Nat) (a : Nat),
      1 ≤ jitterSleep rand a ∧ jitterSleep rand a ≤ 4) ∧
    (∀ r n : Int, 10 ≤ gqlHintWait r n ∧ gqlHintWait r n ≤ 300) ∧
    (∀ B n : Int, ∃ r : Int, B < rateLimitResetWait r n) ∧
    (2 * getLinearBackoff 1 ≠ getLinearBackoff 2) ∧
    (∀ (st : ApiState) (now : Int) (outs : Nat → HttpOutcome Unit),
      countRequests (GitHubAPI_get st now outs).2.2 ≤ 3) ∧
    (∀ (now : Int) (rand : Nat → Nat) (outs : Nat → GqlOutcome Unit) (maxRetries : Nat),
      countRequests (runGraphqlRequest now rand outs maxRetries).2 ≤ maxRetries) := by
  refine ⟨?_, ?_, ?_, ?_, ?_, ?_, ?_, ?_⟩
  · intro a
    simp [gqlHttpBackoff, pow_succ]
    ring
  · intro a
    simp [gqlNetBackoff, pow_succ]
    ring
  · intro rand a
    constructor
    · simp [jitterSleep]
    · have : rand a % 4 < 4 := Nat.mod_lt _ (by omega)
      simp [jitterSleep]
      omega
  · intro r n
    constructor
    · exact le_min (le_max_right _ _) (by omega)
    · exact min_le_right _ _
  · intro B n
    refine ⟨n + B + 1, ?_⟩
    have h := le_max_right 0 (n + B + 1 - n)
    simp only [rateLimitResetWait]
    have h2 : n + B + 1 - n = B + 1 := by ring
    rw [h2] at h ⊢
    omega
  · decide
  · intro st now outs
    simp only [GitHubAPI_get]
    rcases hsp : getAttempts now outs 0 3 st with ⟨res, st2, evs⟩
    have h3 := getAttempts_request_count now outs 3 0 st
    rw [hsp] at h3
    simp only [countRequests_append]
    have hpre : countRequests (check_rate_limit st now) = 0 := by
      by_cases h : st.remaining < RATE_LIMIT_LOW_WATER <;>
        simp [check_rate_limit, h, countRequests]
    simpa [hpre] using h3
  · intro now rand outs maxRetries
    exact gqlAttempts_request_count now rand outs maxRetries maxRetries 0

/-! ## Rate-limit budget invariant (C6) -/

/-- A sequence of `GitHubAPI.get` calls threading the shared counters, each
with its own clock reading and attempt outcomes. -/
def runCalls {α : Type} (st : ApiState) :
    List (Int × (Nat → HttpOutcome α)) → ApiState
  | [] => st
  | c :: rest => runCalls (GitHubAPI_get st c.1 c.2).2.1 rest

theorem getAttempts_remaining_nonneg {α : Type} (now : Int)
    (outs : Nat → HttpOutcome α) :
    ∀ (fuel a : Nat) (st : ApiState), 0 ≤ st.remaining →
      0 ≤ ((getAttempts now outs a fuel st).2.1).remaining := by
  intro fuel
  induction fuel with
  | zero => intro a st h; simpa [getAttempts] using h
  | succ fuel ih =>
    intro a st h
    rcases houts : outs a with ⟨rem, rst, body⟩ | ⟨code, rst⟩ | _
    · simp [getAttempts, houts]
    · by_cases h403 : code = 403
      · rcases hrec : getAttempts now outs (a + 1) fuel st with ⟨res, st2, evs⟩
        have h2 := ih (a + 1) st h
        rw [hrec] at h2
        simp only [getAttempts, houts, if_pos h403, hrec]
        exact h2
      · by_cases h404 : code = 404
        · simpa [getAttempts, houts, h403, h404] using h
        · by_cases h422 : code = 422
          · simpa [getAttempts, houts, h403, h404, h422] using h
          · by_cases ha : a < 2
            · rcases hrec : getAttempts now outs (a + 1) fuel st with ⟨res, st2, evs⟩
              have h2 := ih (a + 1) st h
              rw [hrec] at h2
              simp only [getAttempts, houts, if_neg h403, if_neg h404, if_neg h422,
                if_pos ha, hrec]
              exact h2
            · simpa [getAttempts, houts, h403, h404, h422, ha] using h
    · by_cases ha : a < 2
      · rcases hrec : getAttempts now outs (a + 1) fuel st with ⟨res, st2, evs⟩
        have h2 := ih (a + 1) st h
        rw [hrec] at h2
        simp only [getAttempts, houts, if_pos ha, hrec]
        exact h2
      · simpa [getAttempts, houts, ha] using h

theorem runCalls_remaining_nonneg {α : Type} :
    ∀ (calls : List (Int × (Nat → HttpOutcome α))) (st : ApiState),
      0 ≤ st.remaining → 0 ≤ (runCalls st calls).remaining := by
  intro calls
  induction calls with
  | nil => intro st h; simpa [runCalls] using h
  | cons c rest ih =>
    intro st h
    have hstep : 0 ≤ (GitHubAPI_get st c.1 c.2).2.1.remaining := by
      simp only [GitHubAPI_get]
      exact getAttempts_remaining_nonneg c.1 c.2 3 0 st h
    simpa [runCalls] using ih _ hstep

/-- C6: starting from the initial counters (`remaining = 5000`), the
tracked remaining count stays non-negative across any sequence of calls —
unconditionally, since it is only ever overwritten with a server-reported
count, a natural number; and whenever the tracked budget is below the
low-water mark of 50, the very first event of `get` — before any request
is issued — is a blocking wait of `max(0, reset_time - now) + 5` seconds. -/
theorem C6_rate_limit_budget {α : Type}
    (calls : List (Int × (Nat → HttpOutcome α))) (st : ApiState) (now : Int)
    (outs : Nat → HttpOutcome α) :
    0 ≤ (runCalls initApiState calls).remaining ∧
    (st.remaining < RATE_LIMIT_LOW_WATER →
      (GitHubAPI_get st now outs).2.2.head? =
        some (ApiEvent.wait ((rateLimitResetWait st.reset_time now : Int) : Rat))) := by
  constructor
  · exact runCalls_remaining_nonneg calls initApiState (by decide)
  · intro hlow
    rcases hsp : getAttempts now outs 0 3 st with ⟨res, st2, evs⟩
    simp [GitHubAPI_get, check_rate_limit, hlow, hsp]

/-- Witness for C6: from the initial state, a successful call keeps the
budget non-negative; a budget of 40 with reset deadline 100 at clock 0
forces a 105-second wait before the first request. -/
theorem C6_rate_limit_budget_witness :
    0 ≤ (runCalls initApiState
      [((0 : Int), fun _ => HttpOutcome.success 4999 0 ())]).remaining ∧
    (GitHubAPI_get (α := Unit) { remaining := 40, reset_time := 100, request_count := 0 }
      0 (fun _ => HttpOutcome.httpError 404 0)).2.2.head? =
      some (ApiEvent.wait ((105 : Int) : Rat)) := by
  have h := C6_rate_limit_budget (α := Unit)
    [((0 : Int), fun _ => HttpOutcome.success 4999 0 ())]
    { remaining := 40, reset_time := 100, request_count := 0 } 0
    (fun _ => HttpOutcome.httpError 404 0)
  exact ⟨h.1, h.2 (by decide)⟩

/-! ## Dictionary update lemmas (C9, C10) -/

theorem mem_keysOf_dictUpdate {α : Type} (u d : List (String × α)) (j : String) :
    j ∈ keysOf (dictUpdate d u) ↔ j ∈ keysOf d ∨ j ∈ keysOf u := by
  induction u generalizing d with
  | nil => simp [dictUpdate, keysOf]
  | cons p rest ih =>
    have hstep : dictUpdate d (p :: rest) = dictUpdate (upsert d p.1 p.2) rest := rfl
    rw [hstep, ih]
    rw [mem_keysOf_upsert]
    constructor
    · rintro ((h | h) | h)
      · exact Or.inl h
      · exact Or.inr (show j ∈ p.1 :: keysOf rest from List.mem_cons.mpr (Or.inl h))
      · exact Or.inr (show j ∈ p.1 :: keysOf rest from List.mem_cons.mpr (Or.inr h))
    · rintro (h | h)
      · exact Or.inl (Or.inl h)
      · have h2 : j ∈ p.1 :: keysOf rest := h
        rcases List.mem_cons.mp h2 with h1 | h1
        · exact Or.inl (Or.inr h1)
        · exact Or.inr h1

theorem lookupD_dictUpdate_not_mem {α : Type} (u d : List (String × α)) (j : String)
    (hj : j ∉ keysOf u) :
    lookupD (dictUpdate d u) j = lookupD d j := by
  induction u generalizing d with
  | nil => simp [dictUpdate]
  | cons p rest ih =>
    have hstep : dictUpdate d (p :: rest) = dictUpdate (upsert d p.1 p.2) rest := rfl
    have hj2 : j ∉ p.1 :: keysOf rest := hj
    have hjr : j ∉ keysOf rest := fun h => hj2 (List.mem_cons.mpr (Or.inr h))
    have hjp : ¬ j = p.1 := fun h => hj2 (List.mem_cons.mpr (Or.inl h))
    rw [hstep, ih _ hjr, lookupD_upsert, if_neg hjp]

theorem lookupD_dictUpdate_mem {α : Type} (u d : List (String × α)) (j : String)
    (hnd : (keysOf u).Nodup) (hj : j ∈ keysOf u) :
    lookupD (dictUpdate d u) j = lookupD u j := by
  induction u generalizing d with
  | nil => simp [keysOf] at hj
  | cons p rest ih =>
    have hstep : dictUpdate d (p :: rest) = dictUpdate (upsert d p.1 p.2) rest := rfl
    have hnd2a : (p.1 :: keysOf rest).Nodup := hnd
    have hnd2 : (keysOf rest).Nodup := (List.nodup_cons.mp hnd2a).2
    by_cases hp : j = p.1
    · have hnr : j ∉ keysOf rest := by
        rw [hp]
        exact (List.nodup_cons.mp hnd2a).1
      rw [hstep, lookupD_dictUpdate_not_mem rest _ j hnr, lookupD_upsert, if_pos hp]
      simp [lookupD, hp.symm]
    · have hj2 : j ∈ p.1 :: keysOf rest := hj
      have hjr : j ∈ keysOf rest := by
        rcases List.mem_cons.mp hj2 with h1 | h1
        · exact absurd h1 hp
        · exact h1
      rw [hstep, ih _ hnd2 hjr]
      have hp2 : ¬ p.1 = j := fun h => hp h.symm
      simp [lookupD, hp2]

/-! ## Partial snapshot records (C9) -/

theorem keysOf_indicators (m : List (String × Val)) :
    keysOf (compute_community_smell_indicators m) =
      ["lone_wolf", "radio_silence", "org_silo", "org_silo_proxy"] := rfl

/-- C9 counterexample: a Designite run that *completes* with a non-zero
exit code and produces no readable result files — a "tool failure" — does
not leave the technical fields absent: `_parse_results` still returns the
three `total_*` keys with value 0, which are merged into the record. -/
theorem C9_counterexample :
    "total_code_smells" ∈ keysOf
      ((yearRecord { designiteOn := true, socialOn := true, dryRun := false }
        { name := "r", owner := "o", slug := "s" } 0 1
        { commit := some "abcdef123456abcd", checkoutOk := true,
          exec := DesigniteExec.completed 1 none none,
          social := [("commit_count", Val.int 10)],
          commitCountUntil := 0 }).getD []) ∧
    lookupD
      ((yearRecord { designiteOn := true, socialOn := true, dryRun := false }
        { name := "r", owner := "o", slug := "s" } 0 1
        { commit := some "abcdef123456abcd", checkoutOk := true,
          exec := DesigniteExec.completed 1 none none,
          social := [("commit_count", Val.int 10)],
          commitCountUntil := 0 }).getD []) "total_code_smells" =
      some (Val.int 0) := by
  refine ⟨by decide, by decide⟩

/-- C9 (amended): a Designite timeout or launch error leaves the
technical (`design_*`/`impl_*`/`total_*`) fields absent while every
social field stays present with its extracted value, and the record is
appended to the result list; with absent credentials the record is still
built, consisting of the identity fields only (social fields absent); but
a Designite run that completes with a non-zero exit code and no readable
result files leaves the three `total_*` fields present with value 0
rather than absent.  In every mode the snapshot row exists. -/
theorem C9_partial_record (meta : RepoMeta) (first : Int) (n : Nat)
    (env : YearEnv) (c : String) (rc : Int)
    (hcommit : env.commit = some c) (hchk : env.checkoutOk = true)
    (hnd : (keysOf env.social).Nodup)
    (hind : ∀ k ∈ keysOf env.social,
      k ∉ ["lone_wolf", "radio_silence", "org_silo", "org_silo_proxy"])
    (hpref : ∀ k ∈ keysOf env.social,
      ¬ (strStartsWith k "design_" ∨ strStartsWith k "impl_" ∨ strStartsWith k "total_")) :
    (∀ exec, exec = DesigniteExec.timedOut ∨ exec = DesigniteExec.launchError →
      ∃ r, yearRecord { designiteOn := true, socialOn := true, dryRun := false }
          meta first n { env with exec := exec } = some r ∧
        (∀ k ∈ keysOf env.social, k ∈ keysOf r ∧ lookupD r k = lookupD env.social k) ∧
        (∀ k ∈ keysOf r,
          ¬ (strStartsWith k "design_" ∨ strStartsWith k "impl_" ∨ strStartsWith k "total_")) ∧
        (∀ (g : GitRepo) (renv : RepoEnv) (st : RepoSt) (maxYears : Nat) (now : Int),
          renv.cloneOk = true → renv.firstCommit = some first →
          renv.years n = { env with exec := exec } →
          1 ≤ n → n ≤ maxYears → targetDate first n ≤ now →
          r ∈ (process_repo { designiteOn := true, socialOn := true, dryRun := false }
            g meta renv now maxYears st).1)) ∧
    (yearRecord { designiteOn := true, socialOn := false, dryRun := false }
        meta first n { env with exec := DesigniteExec.timedOut } =
      some (baseRecord meta first n c)) ∧
    (∃ r, yearRecord { designiteOn := true, socialOn := true, dryRun := false }
        meta first n { env with exec := DesigniteExec.completed rc none none } =
          some r ∧
      lookupD r "total_design_smells" = some (Val.int 0) ∧
      lookupD r "total_impl_smells" = some (Val.int 0) ∧
      lookupD r "total_code_smells" = some (Val.int 0)) := by
  refine ⟨?_, ?_, ?_⟩
  · intro exec hex
    have hrun : DesigniteRunner_run exec = [] := by
      rcases hex with h | h
      · rw [h]; rfl
      · rw [h]; rfl
    have hr0 : yearRecord { designiteOn := true, socialOn := true, dryRun := false }
        meta first n { env with exec := exec } =
        some (dictUpdate (dictUpdate (baseRecord meta first n c) env.social)
          (compute_community_smell_indicators env.social)) := by
      simp [yearRecord, hcommit, hchk, hrun, dictUpdate]
    refine ⟨_, hr0, ?_, ?_, ?_⟩
    · intro k hk
      have hkind : k ∉ keysOf (compute_community_smell_indicators env.social) := by
        rw [keysOf_indicators]
        exact hind k hk
      constructor
      · rw [mem_keysOf_dictUpdate]
        left
        rw [mem_keysOf_dictUpdate]
        right
        exact hk
      · rw [lookupD_dictUpdate_not_mem _ _ _ hkind,
          lookupD_dictUpdate_mem _ _ _ hnd hk]
    · intro k hk
      rw [mem_keysOf_dictUpdate] at hk
      rcases hk with hk | hk
      · rw [mem_keysOf_dictUpdate] at hk
        rcases hk with hk | hk
        · revert hk
          simp only [baseRecord, keysOf, List.map, List.mem_cons]
          intro hk
          rcases hk with h | h | h | h | h | h | h | h
          all_goals first
            | (subst h; decide)
            | simp at h
        · exact hpref k hk
      · rw [keysOf_indicators] at hk
        rcases List.mem_cons.mp hk with h | h
        · subst h; decide
        · rcases List.mem_cons.mp h with h | h
          · subst h; decide
          · rcases List.mem_cons.mp h with h | h
            · subst h; decide
            · rcases List.mem_cons.mp h with h | h
              · subst h; decide
              · simp at h
    · intro g renv st maxYears now hclone hfirst hyear h1 h2 h3
      have hchar : (process_repo { designiteOn := true, socialOn := true, dryRun := false }
          g meta renv now maxYears st).1 =
          ((List.range' 1 maxYears).takeWhile
              (fun m => decide (targetDate first m ≤ now))).filterMap
            (fun m => yearRecord { designiteOn := true, socialOn := true, dryRun := false }
              meta first m (renv.years m)) := by
        simp only [process_repo, hclone, hfirst]
        simp only [Bool.true_eq_false, if_false]
        exact processYearsFrom_fst _ g meta renv.years first now maxYears 1 st
      rw [hchar]
      refine List.mem_filterMap.mpr ⟨n, ?_, ?_⟩
      · exact (mem_takeWhile_target first now maxYears 1 n).mpr ⟨h1, by omega, h3⟩
      · rw [hyear]
        exact hr0
  · have hrun : DesigniteRunner_run DesigniteExec.timedOut = [] := rfl
    simp [yearRecord, hcommit, hchk, hrun, dictUpdate]
  · have hrun3 : (DesigniteRunner_run (DesigniteExec.completed rc none none)).map
        (fun p => (p.1, Val.int p.2)) =
        [("total_design_smells", Val.int 0), ("total_impl_smells", Val.int 0),
         ("total_code_smells", Val.int 0)] := rfl
    have hr0 : yearRecord { designiteOn := true, socialOn := true, dryRun := false }
        meta first n { env with exec := DesigniteExec.completed rc none none } =
        some (dictUpdate (dictUpdate (dictUpdate (baseRecord meta first n c)
            [("total_design_smells", Val.int 0), ("total_impl_smells", Val.int 0),
             ("total_code_smells", Val.int 0)])
          env.social) (compute_community_smell_indicators env.social)) := by
      simp [yearRecord, hcommit, hchk, hrun3, dictUpdate]
    have htot : ∀ t ∈ ["total_design_smells", "total_impl_smells", "total_code_smells"],
        lookupD (dictUpdate (dictUpdate (dictUpdate (baseRecord meta first n c)
            [("total_design_smells", Val.int 0), ("total_impl_smells", Val.int 0),
             ("total_code_smells", Val.int 0)])
          env.social) (compute_community_smell_indicators env.social)) t =
          some (Val.int 0) := by
      intro t ht
      have htind : t ∉ keysOf (compute_community_smell_indicators env.social) := by
        rw [keysOf_indicators]
        rcases List.mem_cons.mp ht with h | h
        · subst h; decide
        · rcases List.mem_cons.mp h with h | h
          · subst h; decide
          · rcases List.mem_cons.mp h with h | h
            · subst h; decide
            · simp at h
      have htsoc : t ∉ keysOf env.social := by
        intro hmem
        apply hpref t hmem
        right
        right
        rcases List.mem_cons.mp ht with h | h
        · subst h; decide
        · rcases List.mem_cons.mp h with h | h
          · subst h; decide
          · rcases List.mem_cons.mp h with h | h
            · subst h; decide
            · simp at h
      rw [lookupD_dictUpdate_not_mem _ _ _ htind,
        lookupD_dictUpdate_not_mem _ _ _ htsoc,
        lookupD_dictUpdate_mem _ _ _ (by decide)
          (by rcases List.mem_cons.mp ht with h | h
              · subst h; decide
              · rcases List.mem_cons.mp h with h | h
                · subst h; decide
                · rcases List.mem_cons.mp h with h | h
                  · subst h; decide
                  · simp at h)]
      rcases List.mem_cons.mp ht with h | h
      · subst h; rfl
      · rcases List.mem_cons.mp h with h | h
        · subst h; rfl
        · rcases List.mem_cons.mp h with h | h
          · subst h; rfl
          · simp at h
    exact ⟨_, hr0, htot _ (by decide), htot _ (by decide), htot _ (by decide)⟩

/-- Witness for C9 (amended): with absent credentials and a Designite
timeout, the record is still built, equal to the identity fields alone. -/
theorem C9_partial_record_witness :
    yearRecord { designiteOn := true, socialOn := false, dryRun := false }
        { name := "r", owner := "o", slug := "s" } 0 1
        { commit := some "abcdef123456abcd", checkoutOk := true,
          exec := DesigniteExec.timedOut,
          social := [("commit_count", Val.int 10)], commitCountUntil := 0 } =
      some (baseRecord { name := "r", owner := "o", slug := "s" } 0 1
        "abcdef123456abcd") := by
  have h := C9_partial_record { name := "r", owner := "o", slug := "s" } 0 1
    { commit := some "abcdef123456abcd", checkoutOk := true,
      exec := DesigniteExec.launchError,
      social := [("commit_count", Val.int 10)], commitCountUntil := 0 }
    "abcdef123456abcd" 1 rfl rfl (by decide) (by decide) (by decide)
  exact h.2.1

/-! ## Smell-total relations of the Designite parser (C10) -/

theorem strAppend_left_cancel (pre a b : String) (h : pre ++ a = pre ++ b) : a = b := by
  have hd := congrArg String.data h
  rw [String.data_append, String.data_append] at hd
  exact String.ext (List.append_cancel_left hd)

theorem design_ne_tds (s : String) : ¬ ("design_" ++ s = "total_design_smells") := by
  intro h
  have hd := congrArg String.data h
  rw [String.data_append] at hd
  simp at hd

theorem design_ne_tis (s : String) : ¬ ("design_" ++ s = "total_impl_smells") := by
  intro h
  have hd := congrArg String.data h
  rw [String.data_append] at hd
  simp at hd

theorem design_ne_tcs (s : String) : ¬ ("design_" ++ s = "total_code_smells") := by
  intro h
  have hd := congrArg String.data h
  rw [String.data_append] at hd
  simp at hd

theorem impl_ne_tds (s : String) : ¬ ("impl_" ++ s = "total_design_smells") := by
  intro h
  have hd := congrArg String.data h
  rw [String.data_append] at hd
  simp at hd

theorem impl_ne_tis (s : String) : ¬ ("impl_" ++ s = "total_impl_smells") := by
  intro h
  have hd := congrArg String.data h
  rw [String.data_append] at hd
  simp at hd

theorem impl_ne_tcs (s : String) : ¬ ("impl_" ++ s = "total_code_smells") := by
  intro h
  have hd := congrArg String.data h
  rw [String.data_append] at hd
  simp at hd

theorem impl_ne_design (s t : String) : ¬ ("impl_" ++ s = "design_" ++ t) := by
  intro h
  have hd := congrArg String.data h
  rw [String.data_append, String.data_append] at hd
  simp at hd

theorem lookupD_insertCategories_ne (pre : String) :
    ∀ (counts s : List (String × Nat)) (j : String),
      (∀ p ∈ counts, ¬ (pre ++ safeKey p.1 = j)) →
      lookupD (insertCategories pre counts s) j = lookupD s j := by
  intro counts
  induction counts with
  | nil => intro s j _; rfl
  | cons p rest ih =>
    intro s j h
    have hstep : insertCategories pre (p :: rest) s =
        insertCategories pre rest (upsert s (pre ++ safeKey p.1) p.2) := rfl
    have hjne : ¬ j = pre ++ safeKey p.1 :=
      fun hc => h p (List.mem_cons_self _ _) hc.symm
    rw [hstep, ih _ j (fun q hq => h q (List.mem_cons_of_mem _ hq)),
      lookupD_upsert, if_neg hjne]

theorem lookupD_insertCategories_mem (pre : String) :
    ∀ (counts s : List (String × Nat)) (k : String) (v : Nat),
      ((counts.map (fun p => pre ++ safeKey p.1)).Nodup) → (k, v) ∈ counts →
      lookupD (insertCategories pre counts s) (pre ++ safeKey k) = some v := by
  intro counts
  induction counts with
  | nil => intro s k v _ hmem; simp at hmem
  | cons p rest ih =>
    intro s k v hnd hmem
    have hstep : insertCategories pre (p :: rest) s =
        insertCategories pre rest (upsert s (pre ++ safeKey p.1) p.2) := rfl
    have hnd2 := List.nodup_cons.mp hnd
    rcases List.mem_cons.mp hmem with heq | hmem2
    · subst heq
      have hne : ∀ q ∈ rest, ¬ (pre ++ safeKey q.1 = pre ++ safeKey k) := by
        intro q hq hc
        have hmm : pre ++ safeKey q.1 ∈ List.map (fun p => pre ++ safeKey p.1) rest :=
          List.mem_map_of_mem (fun p => pre ++ safeKey p.1) hq
        rw [hc] at hmm
        exact hnd2.1 hmm
      rw [hstep, lookupD_insertCategories_ne pre rest _ _ hne, lookupD_upsert,
        if_pos rfl]
    · rw [hstep]
      exact ih _ k v hnd2.2 hmem2

theorem countRows_keys_nodup_aux :
    ∀ (rows : List String) (d : List (String × Nat)), (keysOf d).Nodup →
      (keysOf (rows.foldl (fun d k => upsert d k ((lookupD d k).getD 0 + 1)) d)).Nodup := by
  intro rows
  induction rows with
  | nil => intro d h; exact h
  | cons r rest ih =>
    intro d h
    apply ih
    rw [keysOf_upsert]
    by_cases hr : r ∈ keysOf d
    · simpa [hr] using h
    · rw [if_neg hr]
      rw [List.nodup_append]
      refine ⟨h, List.nodup_singleton r, ?_⟩
      intro a ha hb
      rw [List.mem_singleton] at hb
      exact hr (hb ▸ ha)

theorem countRows_keys_nodup (rows : List String) :
    (keysOf (countRows rows)).Nodup :=
  countRows_keys_nodup_aux rows [] (by simp [keysOf])

theorem countRows_keys_subset_aux :
    ∀ (rows : List String) (d : List (String × Nat)) (j : String),
      j ∈ keysOf (rows.foldl (fun d k => upsert d k ((lookupD d k).getD 0 + 1)) d) →
      j ∈ keysOf d ∨ j ∈ rows := by
  intro rows
  induction rows with
  | nil => intro d j h; exact Or.inl h
  | cons r rest ih =>
    intro d j h
    rcases ih _ j h with h2 | h2
    · rcases (mem_keysOf_upsert d r j _).mp h2 with h3 | h3
      · exact Or.inl h3
      · exact Or.inr (List.mem_cons.mpr (Or.inl h3))
    · exact Or.inr (List.mem_cons.mpr (Or.inr h2))

theorem countRows_keys_subset (rows : List String) (j : String)
    (h : j ∈ keysOf (countRows rows)) : j ∈ rows := by
  rcases countRows_keys_subset_aux rows [] j h with h2 | h2
  · simp [keysOf] at h2
  · exact h2

theorem mapped_keys_nodup (pre : String) (rows : List String)
    (hinj : ∀ a ∈ rows, ∀ b ∈ rows, safeKey a = safeKey b → a = b) :
    ((countRows rows).map (fun p => pre ++ safeKey p.1)).Nodup := by
  have h1 : (keysOf (countRows rows)).Nodup := countRows_keys_nodup rows
  have heq : (countRows rows).map (fun p => pre ++ safeKey p.1) =
      (keysOf (countRows rows)).map (fun k => pre ++ safeKey k) := by
    simp [keysOf, List.map_map, Function.comp]
  rw [heq]
  refine List.Nodup.map_on ?_ h1
  intro x hx y hy hxy
  have hx2 : x ∈ rows := countRows_keys_subset rows x hx
  have hy2 : y ∈ rows := countRows_keys_subset rows y hy
  exact hinj x hx2 y hy2 (strAppend_left_cancel pre _ _ hxy)

theorem parse_chain_spec (dm im S2 S4 m : List (String × Nat))
    (hndD : (dm.map (fun p => "design_" ++ safeKey p.1)).Nodup)
    (hndI : (im.map (fun p => "impl_" ++ safeKey p.1)).Nodup)
    (hS2 : S2 = insertCategories "design_" dm
      (upsert [("total_design_smells", 0), ("total_impl_smells", 0),
        ("total_code_smells", 0)] "total_design_smells" (sumVals dm)))
    (hS4 : S4 = insertCategories "impl_" im
      (upsert S2 "total_impl_smells" (sumVals im)))
    (hm : m = upsert S4 "total_code_smells"
      ((lookupD S4 "total_design_smells").getD 0 +
        (lookupD S4 "total_impl_smells").getD 0)) :
    lookupD m "total_design_smells" = some (sumVals dm) ∧
    lookupD m "total_impl_smells" = some (sumVals im) ∧
    lookupD m "total_code_smells" = some (sumVals dm + sumVals im) ∧
    (∀ p ∈ dm, lookupD m ("design_" ++ safeKey p.1) = some p.2) ∧
    (∀ p ∈ im, lookupD m ("impl_" ++ safeKey p.1) = some p.2) := by
  have hS2tds : lookupD S2 "total_design_smells" = some (sumVals dm) := by
    rw [hS2, lookupD_insertCategories_ne "design_" dm _ _
      (fun p _ => design_ne_tds (safeKey p.1)), lookupD_upsert, if_pos rfl]
  have hS4tds : lookupD S4 "total_design_smells" = some (sumVals dm) := by
    rw [hS4, lookupD_insertCategories_ne "impl_" im _ _
      (fun p _ => impl_ne_tds (safeKey p.1)), lookupD_upsert,
      if_neg (by decide), hS2tds]
  have hS4tis : lookupD S4 "total_impl_smells" = some (sumVals im) := by
    rw [hS4, lookupD_insertCategories_ne "impl_" im _ _
      (fun p _ => impl_ne_tis (safeKey p.1)), lookupD_upsert, if_pos rfl]
  have hmtds : lookupD m "total_design_smells" = some (sumVals dm) := by
    rw [hm, lookupD_upsert, if_neg (by decide), hS4tds]
  have hmtis : lookupD m "total_impl_smells" = some (sumVals im) := by
    rw [hm, lookupD_upsert, if_neg (by decide), hS4tis]
  have hmtcs : lookupD m "total_code_smells" = some (sumVals dm + sumVals im) := by
    rw [hm, lookupD_upsert, if_pos rfl, hS4tds, hS4tis]
    rfl
  refine ⟨hmtds, hmtis, hmtcs, ?_, ?_⟩
  · intro p hp
    have h1 : lookupD S2 ("design_" ++ safeKey p.1) = some p.2 := by
      rw [hS2]
      exact lookupD_insertCategories_mem "design_" dm _ p.1 p.2 hndD hp
    rw [hm, lookupD_upsert, if_neg (design_ne_tcs (safeKey p.1)), hS4,
      lookupD_insertCategories_ne "impl_" im _ _
        (fun q _ => impl_ne_design (safeKey q.1) (safeKey p.1)),
      lookupD_upsert, if_neg (design_ne_tis (safeKey p.1)), h1]
  · intro p hp
    have h1 : lookupD S4 ("impl_" ++ safeKey p.1) = some p.2 := by
      rw [hS4]
      exact lookupD_insertCategories_mem "impl_" im _ p.1 p.2 hndI hp
    rw [hm, lookupD_upsert, if_neg (impl_ne_tcs (safeKey p.1)), h1]

/-- C10 counterexample: two design-smell categories, "God Class" and
"God_Class", collide after the space-to-underscore key rewrite.  The
parser reports `total_design_smells = 2`, but the single surviving
`design_God_Class` entry carries 1, so the sum of the per-category
`design_*` counts in the returned mapping is 1 ≠ 2. -/
theorem C10_counterexample :
    lookupD (parse_results (some ["God Class", "God_Class"]) (some []))
      "total_design_smells" = some 2 ∧
    prefixedSum "design_"
      (parse_results (some ["God Class", "God_Class"]) (some [])) = 1 := by
  refine ⟨by decide, by decide⟩

theorem lookupD_upsert_isSome {α : Type} (d : List (String × α)) (k j : String)
    (v : α) (h : (lookupD d j).isSome) : (lookupD (upsert d k v) j).isSome := by
  rw [lookupD_upsert]
  by_cases hj : j = k
  · simp [hj]
  · simpa [hj] using h

theorem lookupD_insertCategories_isSome (pre : String) :
    ∀ (counts s : List (String × Nat)) (j : String),
      (lookupD s j).isSome → (lookupD (insertCategories pre counts s) j).isSome := by
  intro counts
  induction counts with
  | nil => intro s j h; exact h
  | cons p rest ih =>
    intro s j h
    exact ih _ j (lookupD_upsert_isSome s (pre ++ safeKey p.1) j p.2 h)

theorem total_code_upsert_spec (S : List (String × Nat))
    (h1 : (lookupD S "total_design_smells").isSome)
    (h2 : (lookupD S "total_impl_smells").isSome) :
    ∃ td ti,
      lookupD (upsert S "total_code_smells"
        ((lookupD S "total_design_smells").getD 0 +
          (lookupD S "total_impl_smells").getD 0)) "total_design_smells" = some td ∧
      lookupD (upsert S "total_code_smells"
        ((lookupD S "total_design_smells").getD 0 +
          (lookupD S "total_impl_smells").getD 0)) "total_impl_smells" = some ti ∧
      lookupD (upsert S "total_code_smells"
        ((lookupD S "total_design_smells").getD 0 +
          (lookupD S "total_impl_smells").getD 0)) "total_code_smells" =
        some (td + ti) := by
  obtain ⟨td, htd⟩ := Option.isSome_iff_exists.mp h1
  obtain ⟨ti, hti⟩ := Option.isSome_iff_exists.mp h2
  refine ⟨td, ti, ?_, ?_, ?_⟩
  · rw [lookupD_upsert, if_neg (by decide)]
    exact htd
  · rw [lookupD_upsert, if_neg (by decide)]
    exact hti
  · rw [lookupD_upsert, if_pos rfl, htd, hti]
    rfl

theorem parse_results_total_identity (dR iR : Option (List String)) :
    ∃ td ti,
      lookupD (parse_results dR iR) "total_design_smells" = some td ∧
      lookupD (parse_results dR iR) "total_impl_smells" = some ti ∧
      lookupD (parse_results dR iR) "total_code_smells" = some (td + ti) := by
  rcases dR with _ | dRows <;> rcases iR with _ | iRows
  · exact total_code_upsert_spec
      [("total_design_smells", 0), ("total_impl_smells", 0), ("total_code_smells", 0)]
      (by decide) (by decide)
  · exact total_code_upsert_spec
      (insertCategories "impl_" (countRows iRows)
        (upsert [("total_design_smells", 0), ("total_impl_smells", 0),
          ("total_code_smells", 0)] "total_impl_smells" (sumVals (countRows iRows))))
      (lookupD_insertCategories_isSome "impl_" (countRows iRows) _ _
        (by rw [lookupD_upsert, if_neg (by decide)]; decide))
      (lookupD_insertCategories_isSome "impl_" (countRows iRows) _ _
        (by rw [lookupD_upsert, if_pos rfl]; rfl))
  · exact total_code_upsert_spec
      (insertCategories "design_" (countRows dRows)
        (upsert [("total_design_smells", 0), ("total_impl_smells", 0),
          ("total_code_smells", 0)] "total_design_smells" (sumVals (countRows dRows))))
      (lookupD_insertCategories_isSome "design_" (countRows dRows) _ _
        (by rw [lookupD_upsert, if_pos rfl]; rfl))
      (lookupD_insertCategories_isSome "design_" (countRows dRows) _ _
        (by rw [lookupD_upsert, if_neg (by decide)]; decide))
  · exact total_code_upsert_spec
      (insertCategories "impl_" (countRows iRows)
        (upsert (insertCategories "design_" (countRows dRows)
          (upsert [("total_design_smells", 0), ("total_impl_smells", 0),
            ("total_code_smells", 0)] "total_design_smells"
            (sumVals (countRows dRows))))
          "total_impl_smells" (sumVals (countRows iRows))))
      (lookupD_insertCategories_isSome "impl_" (countRows iRows) _ _
        (by rw [lookupD_upsert, if_neg (by decide)]
            exact lookupD_insertCategories_isSome "design_" (countRows dRows) _ _
              (by rw [lookupD_upsert, if_pos rfl]; rfl)))
      (lookupD_insertCategories_isSome "impl_" (countRows iRows) _ _
        (by rw [lookupD_upsert, if_pos rfl]; rfl))

/-- C10 (amended): in every mapping returned by the parser,
`total_code_smells = total_design_smells + total_impl_smells` holds
unconditionally — for any combination of present, missing or colliding
result rows; and provided distinct category names remain distinct after
replacing spaces with underscores (no key collisions),
`total_design_smells` (resp. `total_impl_smells`) additionally equals the
sum of the per-category `design_*` (resp. `impl_*`) counts stored in the
mapping. -/
theorem C10_smell_totals :
    (∀ dR iR : Option (List String), ∃ td ti,
      lookupD (parse_results dR iR) "total_design_smells" = some td ∧
      lookupD (parse_results dR iR) "total_impl_smells" = some ti ∧
      lookupD (parse_results dR iR) "total_code_smells" = some (td + ti)) ∧
    (∀ dRows iRows : List String,
      (∀ a ∈ dRows, ∀ b ∈ dRows, safeKey a = safeKey b → a = b) →
      (∀ a ∈ iRows, ∀ b ∈ iRows, safeKey a = safeKey b → a = b) →
      ∃ td ti,
        lookupD (parse_results (some dRows) (some iRows)) "total_design_smells" =
          some td ∧
        lookupD (parse_results (some dRows) (some iRows)) "total_impl_smells" =
          some ti ∧
        lookupD (parse_results (some dRows) (some iRows)) "total_code_smells" =
          some (td + ti) ∧
        ((countRows dRows).map (fun p =>
          (lookupD (parse_results (some dRows) (some iRows))
            ("design_" ++ safeKey p.1)).getD 0)).sum = td ∧
        ((countRows iRows).map (fun p =>
          (lookupD (parse_results (some dRows) (some iRows))
            ("impl_" ++ safeKey p.1)).getD 0)).sum = ti) := by
  constructor
  · exact parse_results_total_identity
  · intro dRows iRows hd hi
    have hndD := mapped_keys_nodup "design_" dRows hd
    have hndI := mapped_keys_nodup "impl_" iRows hi
    obtain ⟨h1, h2, h3, h4, h5⟩ := parse_chain_spec (countRows dRows) (countRows iRows)
      (insertCategories "design_" (countRows dRows)
        (upsert [("total_design_smells", 0), ("total_impl_smells", 0),
          ("total_code_smells", 0)] "total_design_smells"
          (sumVals (countRows dRows))))
      (insertCategories "impl_" (countRows iRows)
        (upsert (insertCategories "design_" (countRows dRows)
          (upsert [("total_design_smells", 0), ("total_impl_smells", 0),
            ("total_code_smells", 0)] "total_design_smells"
            (sumVals (countRows dRows))))
          "total_impl_smells" (sumVals (countRows iRows))))
      (parse_results (some dRows) (some iRows))
      hndD hndI rfl rfl rfl
    refine ⟨sumVals (countRows dRows), sumVals (countRows iRows), h1, h2, h3, ?_, ?_⟩
    · have hmap : (countRows dRows).map (fun p =>
          (lookupD (parse_results (some dRows) (some iRows))
            ("design_" ++ safeKey p.1)).getD 0) =
          (countRows dRows).map Prod.snd := by
        apply List.map_congr_left
        intro p hp
        rw [h4 p hp]
        rfl
      rw [hmap]
      rfl
    · have hmap : (countRows iRows).map (fun p =>
          (lookupD (parse_results (some dRows) (some iRows))
            ("impl_" ++ safeKey p.1)).getD 0) =
          (countRows iRows).map Prod.snd := by
        apply List.map_congr_left
        intro p hp
        rw [h5 p hp]
        rfl
      rw [hmap]
      rfl

/-- Witness for C10 (amended): the totals identity applied at the
colliding "God Class"/"God_Class" input, and the per-category sums at a
collision-free input. -/
theorem C10_smell_totals_witness :
    (∃ td ti,
      lookupD (parse_results (some ["God Class", "God_Class"]) (some ["A B"]))
        "total_design_smells" = some td ∧
      lookupD (parse_results (some ["God Class", "God_Class"]) (some ["A B"]))
        "total_impl_smells" = some ti ∧
      lookupD (parse_results (some ["God Class", "God_Class"]) (some ["A B"]))
        "total_code_smells" = some (td + ti)) ∧
    (∃ td ti,
      lookupD (parse_results (some ["God Class", "Feature Envy", "God Class"])
        (some ["Magic Number"])) "total_design_smells" = some td ∧
      lookupD (parse_results (some ["God Class", "Feature Envy", "God Class"])
        (some ["Magic Number"])) "total_impl_smells" = some ti ∧
      lookupD (parse_results (some ["God Class", "Feature Envy", "God Class"])
        (some ["Magic Number"])) "total_code_smells" = some (td + ti) ∧
      ((countRows ["God Class", "Feature Envy", "God Class"]).map (fun p =>
        (lookupD (parse_results (some ["God Class", "Feature Envy", "God Class"])
          (some ["Magic Number"])) ("design_" ++ safeKey p.1)).getD 0)).sum = td ∧
      ((countRows ["Magic Number"]).map (fun p =>
        (lookupD (parse_results (some ["God Class", "Feature Envy", "God Class"])
          (some ["Magic Number"])) ("impl_" ++ safeKey p.1)).getD 0)).sum = ti) :=
  ⟨C10_smell_totals.1 (some ["God Class", "God_Class"]) (some ["A B"]),
   C10_smell_totals.2 ["God Class", "Feature Envy", "God Class"] ["Magic Number"]
     (by decide) (by decide)⟩

end TemporalExtraction
